import Mathlib

/-!
GopherLife: the living system of `engine/systems.go`

A shallow embedding of `LivingSystem` (construction, registration, the update
sweep and the neighbour count) together with the properties checked against it.

Conventions of the embedding.

* A Go slice is a `List`; reading `s[i]` with `i` outside `0 ≤ i < len(s)` is a
  run-time panic and is rendered as `none`.  Every function that can panic
  returns an `Option`.
* Go `int` is 64 bits wide.  The only arithmetic on `int` in the living system
  is `x ± 1`, `y ± 1` and `len(..) - 1`.  A wrapped `x + 1` is negative and a
  wrapped `x - 1` is `2^63 - 1`; neither is a valid index of a slice nor equal
  to a slice length or to `-1`, exactly like the unwrapped values `2^63` and
  `-2^63 - 1`.  Unbounded `Int` therefore gives the same results.
* Exhausting memory is outside the model.
-/

namespace engine

/-- Modelled from the spec: the `Position` record is declared outside
`systems.go`.  It is a 2D coordinate plus a rotation; the coordinates are kept
here as the integers that the conversions `int(Position.X)` and
`int(Position.Y)` yield (the truncated position). -/
structure Position where
  X : Int
  Y : Int
  Rotation : Int
deriving DecidableEq

/-- Modelled from the spec: the living state declared outside `systems.go`,
two booleans `Alive` and `AliveNext`. -/
structure Living where
  Alive : Bool
  AliveNext : Bool
deriving DecidableEq

/-- Modelled from the spec: the `LivingNode` record declared outside
`systems.go`, a position plus a living state. -/
structure LivingNode where
  Position : engine.Position
  Living : engine.Living
deriving DecidableEq

/-- Modelled from the spec: the classification carried by a registration
event, declared outside `systems.go`. -/
inductive NodeClass where
  | Living
  | Render
deriving DecidableEq

/-- Modelled from the spec: the registration event declared outside
`systems.go`.  `LivingNode` is a pointer in the source (it is dereferenced by
`*payload.LivingNode`); `none` is the nil pointer.  The render node it may
also carry is never read by the living system and is left out. -/
structure NodeAddedPayload where
  Class : NodeClass
  LivingNode : Option engine.LivingNode
deriving DecidableEq

/-- The living system: `Targets [][]LivingNode`. -/
structure LivingSystem where
  Targets : List (List LivingNode)
deriving DecidableEq

/-- Slice indexing `s[i]` with a Go `int` index: `none` is the run-time panic
for an index outside `0 ≤ i < len(s)`. -/
def index {α : Type} (s : List α) (i : Int) : Option α :=
  if i < 0 then none else s[i.toNat]?

/-- The allocation `make([][]LivingNode, n, m)`: length `n`, capacity `m`,
every element the nil slice.  It panics when `n` is negative or larger than
`m`. -/
def makeRows (n m : Int) : Option (List (List LivingNode)) :=
  if n < 0 ∨ m < n then none else some (List.replicate n.toNat [])

/-- `NewLivingSystem(rows, cols)`: the system and the error value, which is
always nil (`none`); the outer `none` is a panic of the allocation. -/
def NewLivingSystem (rows cols : Int) : Option (LivingSystem × Option String) :=
  match makeRows rows cols with
  | none => none
  | some t => some ({ Targets := t }, none)

/-- `NodeAddedHandler(payload)`: the system after the call, `none` when the
call panics (nil node, `ls.Targets[0]` on a grid without rows, `ls.Targets[x]`
with a negative `x`). -/
def NodeAddedHandler (ls : LivingSystem) (payload : NodeAddedPayload) : Option LivingSystem :=
  if payload.Class = NodeClass.Living then
    match payload.LivingNode with
    | none => none
    | some node =>
      let x := node.Position.X
      let y := node.Position.Y
      if x < (ls.Targets.length : Int) then
        match index ls.Targets 0 with
        | none => none
        | some row0 =>
          if y < (row0.length : Int) then
            match index ls.Targets x with
            | none => none
            | some rowx => some { Targets := ls.Targets.set x.toNat (rowx ++ [node]) }
          else some ls
      else some ls
  else some ls

/-- The closure `add` of `liveNeighbors`: the running `liveCount` after the
lookup at `(x, y)`, `none` when a slice access is out of range. -/
def add (ls : LivingSystem) (x y : Int) (liveCount : Nat) : Option Nat :=
  let x := if x = (ls.Targets.length : Int) then 0
           else if x = -1 then (ls.Targets.length : Int) - 1 else x
  match index ls.Targets x with
  | none => none
  | some row =>
    let y := if y = (row.length : Int) then 0
             else if y = -1 then (row.length : Int) - 1 else y
    match index row y with
    | none => none
    | some cell => some (if cell.Living.Alive then liveCount + 1 else liveCount)

/-- `liveNeighbors(node)`: the eight lookups in the order of the source. -/
def liveNeighbors (ls : LivingSystem) (node : LivingNode) : Option Nat :=
  let x := node.Position.X
  let y := node.Position.Y
  (add ls (x - 1) y 0).bind fun c1 =>
  (add ls (x + 1) y c1).bind fun c2 =>
  (add ls x (y + 1) c2).bind fun c3 =>
  (add ls x (y - 1) c3).bind fun c4 =>
  (add ls (x - 1) (y + 1) c4).bind fun c5 =>
  (add ls (x + 1) (y + 1) c5).bind fun c6 =>
  (add ls (x - 1) (y - 1) c6).bind fun c7 =>
  add ls (x + 1) (y - 1) c7

/-- The rules of life of `updateNodeState`, applied to a node whose `Alive`
has been promoted, for the count `liveCount`. -/
def rulesOfLife (node : LivingNode) (liveCount : Nat) : LivingNode :=
  if node.Living.Alive then
    let node1 := if liveCount < 2 then
      { node with Living := { node.Living with AliveNext := false } } else node
    let node2 := if liveCount = 2 ∨ liveCount = 3 then
      { node1 with Living := { node1.Living with AliveNext := true } } else node1
    if liveCount > 3 then
      { node2 with Living := { node2.Living with AliveNext := false } } else node2
  else
    if liveCount = 3 then
      { node with Living := { node.Living with AliveNext := true } } else node

/-- `updateNodeState(node)`: the value of `*node` after the call, `none` when
`liveNeighbors` panics.  The grid `ls.Targets` is only read. -/
def updateNodeState (ls : LivingSystem) (node : LivingNode) : Option LivingNode :=
  let node1 := { node with Living := { node.Living with Alive := node.Living.AliveNext } }
  let node2 := { node1 with Living := { node1.Living with AliveNext := node1.Living.Alive } }
  match liveNeighbors ls node2 with
  | none => none
  | some liveCount => some (rulesOfLife node2 liveCount)

/-- The inner loop of `Update`, `for _, node := range ls.Targets[x]`: `node`
is the loop variable, a copy of the stored element, and `updateNodeState`
receives the address of that copy.  The result lists the values the copies
hold after their calls; `none` when a call panics. -/
def updateRow (ls : LivingSystem) : List LivingNode → Option (List LivingNode)
  | [] => some []
  | node :: rest =>
    match updateNodeState ls node with
    | none => none
    | some node' =>
      match updateRow ls rest with
      | none => none
      | some done => some (node' :: done)

/-- The outer loop of `Update`, `for x := range ls.Targets`. -/
def updateRows (ls : LivingSystem) : List (List LivingNode) → Option (List (List LivingNode))
  | [] => some []
  | row :: rest =>
    match updateRow ls row with
    | none => none
    | some row' =>
      match updateRows ls rest with
      | none => none
      | some done => some (row' :: done)

/-- `Update(time)`: the system after the call, `none` when a neighbour lookup
panics.  The updated loop copies are dropped when each iteration ends, and
nothing is stored into `ls.Targets`.  The parameter `time` is never read and
is left out. -/
def Update (ls : LivingSystem) : Option LivingSystem :=
  match updateRows ls ls.Targets with
  | none => none
  | some _ => some ls

/-- A finite sequence of `NodeAddedHandler` calls, each of which completes. -/
def registerAll (ls : LivingSystem) : List NodeAddedPayload → Option LivingSystem
  | [] => some ls
  | p :: ps =>
    match NodeAddedHandler ls p with
    | none => none
    | some ls' => registerAll ls' ps

/-- The systems the public API builds: a successful `NewLivingSystem(rows,
cols)` followed by completed `NodeAddedHandler` calls. -/
def Reachable (rows cols : Int) (ls : LivingSystem) : Prop :=
  ∃ ls0 err ps, NewLivingSystem rows cols = some (ls0, err) ∧ registerAll ls0 ps = some ls

/-- A living node at the truncated position `(x, y)`. -/
def mkNode (x y : Int) (alive aliveNext : Bool) : LivingNode :=
  { Position := { X := x, Y := y, Rotation := 0 },
    Living := { Alive := alive, AliveNext := aliveNext } }

/-- A registration event of class `Living` for the given node. -/
def livingPayload (node : LivingNode) : NodeAddedPayload :=
  { Class := NodeClass.Living, LivingNode := some node }

/-- The eight offsets of the neighbourhood: `{-1, 0, 1}²` without `(0, 0)`. -/
def neighbourOffsets : List (Int × Int) :=
  [(-1, -1), (-1, 0), (-1, 1), (0, -1), (0, 1), (1, -1), (1, 0), (1, 1)]

/-- The cell stored at `Targets[i][j]`, when there is one. -/
def cellAt (ls : LivingSystem) (i j : Int) : Option LivingNode :=
  (index ls.Targets i).bind fun row => index row j

/-- Whether `Targets[i][j].Living.Alive` holds (false when no cell is stored
there). -/
def aliveAt (ls : LivingSystem) (i j : Int) : Bool :=
  match cellAt ls i j with
  | none => false
  | some cell => cell.Living.Alive

/-- The toroidal neighbour count in the words of the specification: the number
of offsets `(dx, dy)` for which `Targets[(x+dx) mod rows][(y+dy) mod cols]` is
alive, an offset counting once even when two offsets meet the same cell. -/
def toroidalCount (ls : LivingSystem) (rows cols x y : Int) : Nat :=
  (neighbourOffsets.filter fun d => aliveAt ls ((x + d.1) % rows) ((y + d.2) % cols)).length

/-- Every row of the grid holds exactly `cols` nodes. -/
def Rectangular (ls : LivingSystem) (cols : Int) : Prop :=
  ∀ row ∈ ls.Targets, (row.length : Int) = cols

/-- The rows of `before` are all still rows of `after`, each one possibly
with nodes added at its end: the number of rows is the same and every row of
`before` is an initial segment of the same row of `after`. -/
def RowsKept (before after : LivingSystem) : Prop :=
  after.Targets.length = before.Targets.length ∧
  ∀ (i : Nat) (row : List LivingNode), before.Targets[i]? = some row →
    ∃ added, after.Targets[i]? = some (row ++ added)

/-- A 2 × 3 grid, the node at `Targets[i][j]` positioned at `(i, j)`; the cells
`(0, 1)` and `(1, 2)` are alive. -/
def grid2x3 : LivingSystem :=
  { Targets := [[mkNode 0 0 false false, mkNode 0 1 true true, mkNode 0 2 false false],
                [mkNode 1 0 false false, mkNode 1 1 false false, mkNode 1 2 true true]] }

/-- The 1 × 1 grid whose only node, at `(0, 0)`, is dead and about to live. -/
def grid1x1 : LivingSystem :=
  { Targets := [[mkNode 0 0 false true]] }

/-- A grid of two rows: row 0 holds one node, row 1 is empty. -/
def gridTwoRows : LivingSystem :=
  { Targets := [[mkNode 0 (-1) true true], []] }

/-- The grid of `rows × cols` nodes whose node at `Targets[i][j]` is positioned
at `(i, j)` and has `Alive = AliveNext = live i j`. -/
def gridOf (rows cols : Nat) (live : Int → Int → Bool) : LivingSystem :=
  { Targets := (List.range rows).map fun (i : Nat) => (List.range cols).map fun (j : Nat) =>
      mkNode (Int.ofNat i) (Int.ofNat j) (live (Int.ofNat i) (Int.ofNat j))
        (live (Int.ofNat i) (Int.ofNat j)) }

/-- A well-formed grid of `rows × cols` nodes: `rows` rows, each holding
exactly `cols` nodes, the node at `Targets[i][j]` having the truncated position
`(i, j)`. -/
def WellFormed (ls : LivingSystem) (rows cols : Int) : Prop :=
  (ls.Targets.length : Int) = rows ∧ Rectangular ls cols ∧
  ∀ i j cell, cellAt ls i j = some cell → cell.Position.X = i ∧ cell.Position.Y = j

/-- The live nodes of the grid (`Alive = AliveNext = true`) are exactly the
stored cells `(i, j)` with `live i j`, and every other stored node has
`Alive = AliveNext = false`. -/
def LiveExactly (ls : LivingSystem) (live : Int → Int → Prop) : Prop :=
  ∀ i j cell, cellAt ls i j = some cell →
    cell.Living.AliveNext = cell.Living.Alive ∧ (cell.Living.Alive = true ↔ live i j)

/-- The four cells of the 2 × 2 block whose first cell is `(r, c)`, on the torus
of `rows × cols` cells. -/
def inBlock (rows cols r c i j : Int) : Prop :=
  (i = r ∨ i = (r + 1) % rows) ∧ (j = c ∨ j = (c + 1) % cols)

/-- The grid holds no node: every row is empty. -/
def HoldsNoNode (ls : LivingSystem) : Prop :=
  ∀ row ∈ ls.Targets, row = []

/-- The value `liveCount` that `updateNodeState(node)` receives from
`liveNeighbors`, after the promotion of `AliveNext` into `Alive`. -/
def liveCountOf (ls : LivingSystem) (node : LivingNode) : Option Nat :=
  let node1 := { node with Living := { node.Living with Alive := node.Living.AliveNext } }
  let node2 := { node1 with Living := { node1.Living with AliveNext := node1.Living.Alive } }
  liveNeighbors ls node2

/-- The inner loop of `Update`, recording for every node of the row the count
its `updateNodeState` call computes; `none` when a call panics. -/
def rowCounts (ls : LivingSystem) : List LivingNode → Option (List Nat)
  | [] => some []
  | node :: rest =>
    match liveCountOf ls node with
    | none => none
    | some c =>
      match rowCounts ls rest with
      | none => none
      | some done => some (c :: done)

/-- The outer loop of `Update`, recording the counts row by row. -/
def gridCounts (ls : LivingSystem) : List (List LivingNode) → Option (List (List Nat))
  | [] => some []
  | row :: rest =>
    match rowCounts ls row with
    | none => none
    | some cs =>
      match gridCounts ls rest with
      | none => none
      | some done => some (cs :: done)

/-- The counts that one call of `Update` computes, the count for the node
stored at `Targets[i][j]` at place `[i][j]`. -/
def updateCounts (ls : LivingSystem) : Option (List (List Nat)) :=
  gridCounts ls ls.Targets

/-- The count recorded at place `[i][j]`. -/
def countAt (counts : List (List Nat)) (i j : Int) : Option Nat :=
  (index counts i).bind fun row => index row j

/-- The 3 × 3 grid whose only live cell is the centre `(1, 1)`. -/
def gridLone : LivingSystem :=
  gridOf 3 3 fun i j => decide (i = 1 ∧ j = 1)

/-- The 5 × 5 grid whose live cells are the line `(2, 1)`, `(2, 2)`, `(2, 3)`. -/
def gridBlinker : LivingSystem :=
  gridOf 5 5 fun i j => decide (i = 2 ∧ (j = 1 ∨ j = 2 ∨ j = 3))

/-- The 4 × 4 grid whose live cells are the block `(1, 1)`, `(1, 2)`, `(2, 1)`,
`(2, 2)`. -/
def gridBlock : LivingSystem :=
  gridOf 4 4 fun i j => decide ((i = 1 ∨ i = 2) ∧ (j = 1 ∨ j = 2))

/-- The 1 × 2 grid whose node at `(0, 0)` is dead and about to live and whose
node at `(0, 1)` is dead. -/
def gridPending : LivingSystem :=
  { Targets := [[mkNode 0 0 false true, mkNode 0 1 false false]] }

end engine

open engine

theorem engine.index_of_lt {α : Type} (s : List α) (i : Int) (h0 : 0 ≤ i)
    (h1 : i < (s.length : Int)) : ∃ a, index s i = some a ∧ a ∈ s := by
  have hlt : i.toNat < s.length := by omega
  refine ⟨s[i.toNat], ?_, List.getElem_mem _⟩
  unfold index
  rw [if_neg (by omega)]
  exact List.getElem?_eq_getElem hlt

theorem engine.index_eq_some {α : Type} (s : List α) (i : Int) (a : α)
    (h : index s i = some a) : 0 ≤ i ∧ i < (s.length : Int) ∧ s[i.toNat]? = some a := by
  unfold index at h
  by_cases hi : i < 0
  · rw [if_pos hi] at h; cases h
  · rw [if_neg hi] at h
    have hlt : i.toNat < s.length := by
      rcases List.getElem?_eq_some.mp h with ⟨hl, _⟩
      exact hl
    exact ⟨by omega, by omega, h⟩

theorem engine.wrap_eq_emod (n v : Int) (hn : 1 ≤ n) (h0 : -1 ≤ v) (h1 : v ≤ n) :
    (if v = n then 0 else if v = -1 then n - 1 else v) = v % n := by
  by_cases e1 : v = n
  · rw [if_pos e1, e1, Int.emod_self]
  · rw [if_neg e1]
    by_cases e2 : v = -1
    · rw [if_pos e2, e2]
      have h : (-1 : Int) % n = (-1 + n) % n := by rw [Int.add_emod_self]
      rw [h, Int.emod_eq_of_lt (by omega) (by omega)]
      omega
    · rw [if_neg e2, Int.emod_eq_of_lt (by omega) (by omega)]

theorem engine.emod_range (n v : Int) (hn : 1 ≤ n) : 0 ≤ v % n ∧ v % n < n :=
  ⟨Int.emod_nonneg v (by omega), Int.emod_lt_of_pos v (by omega)⟩

/-- One lookup of `add` on a rectangular grid, for a coordinate at most one
step outside the grid: it succeeds and counts the cell met after wrapping. -/
theorem engine.add_wrapped (ls : LivingSystem) (rows cols : Int)
    (hrows : (ls.Targets.length : Int) = rows) (hr : 1 ≤ rows) (hc : 1 ≤ cols)
    (hwf : Rectangular ls cols) (x y : Int)
    (hx0 : -1 ≤ x) (hx1 : x ≤ rows) (hy0 : -1 ≤ y) (hy1 : y ≤ cols) (c : Nat) :
    (∃ cell, cellAt ls (x % rows) (y % cols) = some cell) ∧
    add ls x y c = some (if aliveAt ls (x % rows) (y % cols) then c + 1 else c) := by
  obtain ⟨hxa, hxb⟩ := engine.emod_range rows x hr
  obtain ⟨hya, hyb⟩ := engine.emod_range cols y hc
  obtain ⟨row, hrow, hmem⟩ := engine.index_of_lt ls.Targets (x % rows) hxa (by omega)
  have hlen : (row.length : Int) = cols := hwf row hmem
  obtain ⟨cell, hcell, _⟩ := engine.index_of_lt row (y % cols) hya (by omega)
  have hcellAt : cellAt ls (x % rows) (y % cols) = some cell := by
    simp [cellAt, hrow, hcell]
  refine ⟨⟨cell, hcellAt⟩, ?_⟩
  unfold add
  simp only [hrows]
  rw [engine.wrap_eq_emod rows x hr hx0 hx1]
  simp only [hrow, hlen]
  rw [engine.wrap_eq_emod cols y hc hy0 hy1]
  simp only [hcell, aliveAt, hcellAt]

/-- The neighbour count reads the position of the node only. -/
theorem engine.liveNeighbors_position (ls : LivingSystem) (node node' : LivingNode)
    (h : node'.Position = node.Position) : liveNeighbors ls node' = liveNeighbors ls node := by
  unfold liveNeighbors
  rw [h]

/-- The rule table, as `rulesOfLife` computes it. -/
theorem engine.rulesOfLife_table (node : LivingNode) (c : Nat) :
    (rulesOfLife node c).Position = node.Position ∧
    (rulesOfLife node c).Living.Alive = node.Living.Alive ∧
    ((rulesOfLife node c).Living.AliveNext = true ↔
      (node.Living.Alive = true ∧ (c = 2 ∨ c = 3)) ∨
      (node.Living.Alive = false ∧ (c = 3 ∨ node.Living.AliveNext = true))) := by
  obtain ⟨pos, ⟨a, an⟩⟩ := node
  cases a
  · by_cases h3 : c = 3
    · simp [rulesOfLife, h3]
    · simp [rulesOfLife, h3]
  · by_cases h2 : c < 2
    · have e2 : ¬ (c = 2 ∨ c = 3) := by omega
      have e3 : ¬ (c > 3) := by omega
      simp [rulesOfLife, h2, e2, e3]
    · by_cases h23 : c = 2 ∨ c = 3
      · have e3 : ¬ (c > 3) := by omega
        simp [rulesOfLife, h2, h23, e3]
      · have e3 : c > 3 := by omega
        simp [rulesOfLife, h2, h23, e3]

/-- C1: when `liveNeighbors` succeeds on grid `ls` and node `node` with count
`c`, `updateNodeState` completes; the node's `Alive` is then the `AliveNext` it
had before (call it `a`), its `AliveNext` is `(a and (c = 2 or c = 3)) or
(not a and c = 3)`, and its `Position` is unchanged. -/
theorem engine.updateNodeState_rule_table (ls : LivingSystem) (node : LivingNode) (c : Nat)
    (h : liveNeighbors ls node = some c) :
    ∃ node', updateNodeState ls node = some node' ∧
      node'.Living.Alive = node.Living.AliveNext ∧
      (node'.Living.AliveNext = true ↔
        (node.Living.AliveNext = true ∧ (c = 2 ∨ c = 3)) ∨
        (node.Living.AliveNext = false ∧ c = 3)) ∧
      node'.Position = node.Position := by
  let node2 : LivingNode :=
    { node with Living := { Alive := node.Living.AliveNext, AliveNext := node.Living.AliveNext } }
  have hcount : liveNeighbors ls node2 = some c := by
    exact (engine.liveNeighbors_position ls node2 node rfl).trans h
  have hrun : updateNodeState ls node = some (rulesOfLife node2 c) := by
    show (match liveNeighbors ls node2 with
      | none => none
      | some liveCount => some (rulesOfLife node2 liveCount)) = _
    rw [hcount]
  obtain ⟨hp, ha, hn⟩ := engine.rulesOfLife_table node2 c
  refine ⟨rulesOfLife node2 c, hrun, ha, ?_, hp⟩
  rw [hn]
  show (node.Living.AliveNext = true ∧ (c = 2 ∨ c = 3)) ∨
      (node.Living.AliveNext = false ∧ (c = 3 ∨ node.Living.AliveNext = true)) ↔ _
  cases node.Living.AliveNext <;> simp

/-- Witness for C1: on the one-cell grid whose cell is alive the count is 8,
so a node about to be alive is promoted and then dies of overpopulation. -/
theorem engine.updateNodeState_rule_table_witness :
    liveNeighbors ⟨[[mkNode 0 0 true true]]⟩ (mkNode 0 0 false true) = some 8 ∧
    ∃ node', updateNodeState ⟨[[mkNode 0 0 true true]]⟩ (mkNode 0 0 false true) = some node' ∧
      node'.Living.Alive = (mkNode 0 0 false true).Living.AliveNext ∧
      (node'.Living.AliveNext = true ↔
        ((mkNode 0 0 false true).Living.AliveNext = true ∧ ((8 : Nat) = 2 ∨ (8 : Nat) = 3)) ∨
        ((mkNode 0 0 false true).Living.AliveNext = false ∧ (8 : Nat) = 3)) ∧
      node'.Position = (mkNode 0 0 false true).Position :=
  ⟨by decide, engine.updateNodeState_rule_table ⟨[[mkNode 0 0 true true]]⟩
    (mkNode 0 0 false true) 8 (by decide)⟩

/-- Counting the members of a list that satisfy a test, one member at a time. -/
theorem engine.filter_length_cons {α : Type} (p : α → Bool) (a : α) (l : List α) :
    ((a :: l).filter p).length = (if p a then 1 else 0) + (l.filter p).length := by
  cases h : p a
  · simp [List.filter, h]
  · simp [List.filter, h]
    omega

/-- The specification's count, one summand for each offset. -/
theorem engine.toroidalCount_eq_sum (ls : LivingSystem) (rows cols x y : Int) :
    toroidalCount ls rows cols x y =
      (if aliveAt ls ((x + -1) % rows) ((y + -1) % cols) then 1 else 0) +
      ((if aliveAt ls ((x + -1) % rows) ((y + 0) % cols) then 1 else 0) +
      ((if aliveAt ls ((x + -1) % rows) ((y + 1) % cols) then 1 else 0) +
      ((if aliveAt ls ((x + 0) % rows) ((y + -1) % cols) then 1 else 0) +
      ((if aliveAt ls ((x + 0) % rows) ((y + 1) % cols) then 1 else 0) +
      ((if aliveAt ls ((x + 1) % rows) ((y + -1) % cols) then 1 else 0) +
      ((if aliveAt ls ((x + 1) % rows) ((y + 0) % cols) then 1 else 0) +
      ((if aliveAt ls ((x + 1) % rows) ((y + 1) % cols) then 1 else 0) + 0))))))) := by
  unfold toroidalCount neighbourOffsets
  simp only [engine.filter_length_cons, List.filter_nil, List.length_nil]

/-- The running count after one lookup, as a sum. -/
theorem engine.count_step (b : Bool) (c : Nat) :
    (if b = true then c + 1 else c) = c + (if b = true then 1 else 0) := by
  cases b <;> simp

/-- One lookup of `add` at an offset of at most one step from a position inside
a rectangular grid: the cell it wraps to is stored, and is counted when alive. -/
theorem engine.add_offset (ls : LivingSystem) (rows cols : Int)
    (hrows : (ls.Targets.length : Int) = rows) (hr : 1 ≤ rows) (hc : 1 ≤ cols)
    (hwf : Rectangular ls cols) (x y : Int)
    (hx0 : 0 ≤ x) (hx1 : x < rows) (hy0 : 0 ≤ y) (hy1 : y < cols)
    (dx dy : Int) (h1 : -1 ≤ dx) (h2 : dx ≤ 1) (h3 : -1 ≤ dy) (h4 : dy ≤ 1) :
    (∃ cell, cellAt ls ((x + dx) % rows) ((y + dy) % cols) = some cell) ∧
    ∀ c, add ls (x + dx) (y + dy) c
      = some (c + (if aliveAt ls ((x + dx) % rows) ((y + dy) % cols) = true then 1 else 0)) := by
  refine ⟨(engine.add_wrapped ls rows cols hrows hr hc hwf (x + dx) (y + dy)
    (by omega) (by omega) (by omega) (by omega) 0).1, fun c => ?_⟩
  rw [(engine.add_wrapped ls rows cols hrows hr hc hwf (x + dx) (y + dy)
    (by omega) (by omega) (by omega) (by omega) c).2, engine.count_step]

/-- On a rectangular grid and for a node inside it, `liveNeighbors` succeeds
and returns the toroidal count of the specification. -/
theorem engine.liveNeighbors_count (ls : LivingSystem) (node : LivingNode) (rows cols : Int)
    (hrows : (ls.Targets.length : Int) = rows) (hr : 1 ≤ rows) (hc : 1 ≤ cols)
    (hwf : Rectangular ls cols)
    (hx0 : 0 ≤ node.Position.X) (hx1 : node.Position.X < rows)
    (hy0 : 0 ≤ node.Position.Y) (hy1 : node.Position.Y < cols) :
    liveNeighbors ls node
        = some (toroidalCount ls rows cols node.Position.X node.Position.Y) := by
  generalize hxe : node.Position.X = x at hx0 hx1
  generalize hye : node.Position.Y = y at hy0 hy1
  have A := fun dx dy h1 h2 h3 h4 =>
    (engine.add_offset ls rows cols hrows hr hc hwf x y hx0 hx1 hy0 hy1 dx dy h1 h2 h3 h4).2
  have ex : x + 0 = x := Int.add_zero x
  have ey : y + 0 = y := Int.add_zero y
  have a1 := A (-1) 0 (by omega) (by omega) (by omega) (by omega)
  have a2 := A 1 0 (by omega) (by omega) (by omega) (by omega)
  have a3 := A 0 1 (by omega) (by omega) (by omega) (by omega)
  have a4 := A 0 (-1) (by omega) (by omega) (by omega) (by omega)
  have a5 := A (-1) 1 (by omega) (by omega) (by omega) (by omega)
  have a6 := A 1 1 (by omega) (by omega) (by omega) (by omega)
  have a7 := A (-1) (-1) (by omega) (by omega) (by omega) (by omega)
  have a8 := A 1 (-1) (by omega) (by omega) (by omega) (by omega)
  rw [ex] at a3 a4
  rw [ey] at a1 a2
  have hrun : liveNeighbors ls node = (add ls (x + -1) y 0).bind fun c1 =>
      (add ls (x + 1) y c1).bind fun c2 =>
      (add ls x (y + 1) c2).bind fun c3 =>
      (add ls x (y + -1) c3).bind fun c4 =>
      (add ls (x + -1) (y + 1) c4).bind fun c5 =>
      (add ls (x + 1) (y + 1) c5).bind fun c6 =>
      (add ls (x + -1) (y + -1) c6).bind fun c7 =>
      add ls (x + 1) (y + -1) c7 := by
    unfold liveNeighbors
    rw [hxe, hye]
    rfl
  rw [hrun, engine.toroidalCount_eq_sum]
  simp only [a1, a2, a3, a4, a5, a6, a7, a8, Option.some_bind, ex, ey]
  congr 1
  omega

/-- C2: on a rectangular grid with `rows ≥ 1` rows of `cols ≥ 1` nodes and for
a node whose truncated position `(x, y)` lies inside the grid, `liveNeighbors`
succeeds and returns the toroidal 8-neighbour count: the number of offsets
`(dx, dy)` other than `(0, 0)` for which `Targets[(x+dx) mod rows][(y+dy) mod
cols]` is alive, each of those cells being stored; in particular the node at
`(0, 0)` counts the cell stored at `(rows-1, cols-1)`. -/
theorem engine.liveNeighbors_toroidal (ls : LivingSystem) (node : LivingNode) (rows cols : Int)
    (hrows : (ls.Targets.length : Int) = rows) (hr : 1 ≤ rows) (hc : 1 ≤ cols)
    (hwf : Rectangular ls cols)
    (hx0 : 0 ≤ node.Position.X) (hx1 : node.Position.X < rows)
    (hy0 : 0 ≤ node.Position.Y) (hy1 : node.Position.Y < cols) :
    liveNeighbors ls node
        = some (toroidalCount ls rows cols node.Position.X node.Position.Y) ∧
    (∀ d ∈ neighbourOffsets, ∃ cell,
        cellAt ls ((node.Position.X + d.1) % rows) ((node.Position.Y + d.2) % cols)
          = some cell) ∧
    (node.Position.X = 0 → node.Position.Y = 0 → aliveAt ls (rows - 1) (cols - 1) = true →
        1 ≤ toroidalCount ls rows cols node.Position.X node.Position.Y) := by
  refine ⟨engine.liveNeighbors_count ls node rows cols hrows hr hc hwf hx0 hx1 hy0 hy1, ?_, ?_⟩
  · intro d hd
    unfold neighbourOffsets at hd
    simp only [List.mem_cons, List.mem_nil_iff, or_false] at hd
    rcases hd with h | h | h | h | h | h | h | h <;> subst h <;>
      exact (engine.add_offset ls rows cols hrows hr hc hwf _ _ hx0 hx1 hy0 hy1 _ _
        (by omega) (by omega) (by omega) (by omega)).1
  · intro h0 h1 hal
    rw [h0, h1, engine.toroidalCount_eq_sum]
    have e1 : ((0 : Int) + -1) % rows = rows - 1 := by
      rw [← engine.wrap_eq_emod rows (0 + -1) hr (by omega) (by omega)]
      simp
      intro h
      omega
    have e2 : ((0 : Int) + -1) % cols = cols - 1 := by
      rw [← engine.wrap_eq_emod cols (0 + -1) hc (by omega) (by omega)]
      simp
      intro h
      omega
    rw [e1, e2, hal]
    simp

/-- Witness for C2: the 2 × 3 grid and its node at `(0, 0)`, whose diagonal
neighbour across both edges is the live cell stored at `(1, 2)`. -/
theorem engine.liveNeighbors_toroidal_witness :
    Rectangular grid2x3 3 ∧
    (liveNeighbors grid2x3 (mkNode 0 0 false false)
        = some (toroidalCount grid2x3 2 3 (mkNode 0 0 false false).Position.X
            (mkNode 0 0 false false).Position.Y) ∧
     (∀ d ∈ neighbourOffsets, ∃ cell,
        cellAt grid2x3 (((mkNode 0 0 false false).Position.X + d.1) % 2)
          (((mkNode 0 0 false false).Position.Y + d.2) % 3) = some cell) ∧
     ((mkNode 0 0 false false).Position.X = 0 → (mkNode 0 0 false false).Position.Y = 0 →
        aliveAt grid2x3 (2 - 1) (3 - 1) = true →
        1 ≤ toroidalCount grid2x3 2 3 (mkNode 0 0 false false).Position.X
            (mkNode 0 0 false false).Position.Y)) :=
  ⟨by unfold Rectangular; decide,
   engine.liveNeighbors_toroidal grid2x3 (mkNode 0 0 false false) 2 3 (by decide) (by decide)
     (by decide) (by unfold Rectangular; decide) (by decide) (by decide) (by decide) (by decide)⟩

/-- C3, evaluated on the well-formed 1 × 1 grid whose node has `Alive = false`
and `AliveNext = true`: the loop copy is promoted (`Alive = true`), yet `Update`
returns the grid as it was, so the stored node still has `Alive = false`, which
is not the `AliveNext` it had before the call. -/
theorem engine.Update_leaves_Alive_unpromoted :
    updateRows grid1x1 grid1x1.Targets = some [[mkNode 0 0 true false]] ∧
    Update grid1x1 = some grid1x1 ∧
    cellAt grid1x1 0 0 = some (mkNode 0 0 false true) ∧
    (mkNode 0 0 false true).Living.Alive ≠ (mkNode 0 0 false true).Living.AliveNext := by
  decide

/-- Replacing one row leaves the other rows where they are. -/
theorem engine.index_set_ne {α : Type} (s : List α) (x i : Int) (a : α) (hx : 0 ≤ x)
    (hne : i ≠ x) : index (s.set x.toNat a) i = index s i := by
  unfold index
  by_cases hi : i < 0
  · rw [if_pos hi, if_pos hi]
  · rw [if_neg hi, if_neg hi]
    exact List.getElem?_set_ne (by omega)

/-- Replacing a stored row puts the new row at its index. -/
theorem engine.index_set_self {α : Type} (s : List α) (x : Int) (a : α) (hx : 0 ≤ x)
    (hlt : x < (s.length : Int)) : index (s.set x.toNat a) x = some a := by
  unfold index
  rw [if_neg (by omega)]
  exact List.getElem?_set_self (by omega)

/-- What a completed `NodeAddedHandler` call has done: nothing, or it has
appended the payload's node to the row of its truncated `X`. -/
theorem engine.NodeAddedHandler_cases (ls ls' : LivingSystem) (payload : NodeAddedPayload)
    (h : NodeAddedHandler ls payload = some ls') :
    ls' = ls ∨
    ∃ node row0 rowx, payload.Class = NodeClass.Living ∧ payload.LivingNode = some node ∧
      node.Position.X < (ls.Targets.length : Int) ∧
      index ls.Targets 0 = some row0 ∧ node.Position.Y < (row0.length : Int) ∧
      index ls.Targets node.Position.X = some rowx ∧
      ls' = { Targets := ls.Targets.set node.Position.X.toNat (rowx ++ [node]) } := by
  unfold NodeAddedHandler at h
  by_cases hc : payload.Class = NodeClass.Living
  · rw [if_pos hc] at h
    cases hn : payload.LivingNode with
    | none => rw [hn] at h; cases h
    | some node =>
      rw [hn] at h
      simp only at h
      by_cases hx : node.Position.X < (ls.Targets.length : Int)
      · rw [if_pos hx] at h
        cases h0 : index ls.Targets 0 with
        | none => rw [h0] at h; cases h
        | some row0 =>
          rw [h0] at h
          simp only at h
          by_cases hy : node.Position.Y < (row0.length : Int)
          · rw [if_pos hy] at h
            cases hr : index ls.Targets node.Position.X with
            | none => rw [hr] at h; cases h
            | some rowx =>
              rw [hr] at h
              simp only [Option.some.injEq] at h
              exact Or.inr ⟨node, row0, rowx, hc, rfl, hx, rfl, hy, hr, h.symm⟩
          · rw [if_neg hy] at h
            simp only [Option.some.injEq] at h
            exact Or.inl h.symm
      · rw [if_neg hx] at h
        simp only [Option.some.injEq] at h
        exact Or.inl h.symm
  · rw [if_neg hc] at h
    simp only [Option.some.injEq] at h
    exact Or.inl h.symm

/-- C4: on a system with at least one row and for a payload whose node has
truncated coordinates `(x, y)` with `x ≥ 0`, `NodeAddedHandler` completes.  If
the class is `Living`, `x < len(Targets)` and `y < len(Targets[0])`, the new
grid has the same number of rows, its row `x` is the old row `x` with the node
appended at the end, and every other row is unchanged.  In every other case
the grid is unchanged. -/
theorem engine.NodeAddedHandler_registers (ls : LivingSystem) (payload : NodeAddedPayload)
    (node : LivingNode) (hrows : 1 ≤ ls.Targets.length)
    (hnode : payload.LivingNode = some node) (hx : 0 ≤ node.Position.X) :
    ∃ ls' row0, NodeAddedHandler ls payload = some ls' ∧ index ls.Targets 0 = some row0 ∧
      ((payload.Class = NodeClass.Living ∧ node.Position.X < (ls.Targets.length : Int) ∧
          node.Position.Y < (row0.length : Int)) →
        ls'.Targets.length = ls.Targets.length ∧
        (∃ rowx, index ls.Targets node.Position.X = some rowx ∧
          index ls'.Targets node.Position.X = some (rowx ++ [node])) ∧
        ∀ i : Int, i ≠ node.Position.X → index ls'.Targets i = index ls.Targets i) ∧
      (¬ (payload.Class = NodeClass.Living ∧ node.Position.X < (ls.Targets.length : Int) ∧
          node.Position.Y < (row0.length : Int)) →
        ls' = ls) := by
  obtain ⟨row0, h0, _⟩ := engine.index_of_lt ls.Targets 0 (le_refl 0) (by omega)
  by_cases hg : payload.Class = NodeClass.Living ∧ node.Position.X < (ls.Targets.length : Int) ∧
      node.Position.Y < (row0.length : Int)
  · obtain ⟨hc, hlt, hy⟩ := hg
    obtain ⟨rowx, hr, _⟩ := engine.index_of_lt ls.Targets node.Position.X hx hlt
    refine ⟨{ Targets := ls.Targets.set node.Position.X.toNat (rowx ++ [node]) }, row0,
      ?_, h0, ?_, ?_⟩
    · unfold NodeAddedHandler
      rw [if_pos hc, hnode]
      simp only
      rw [if_pos hlt, h0]
      simp only
      rw [if_pos hy, hr]
    · intro _
      refine ⟨List.length_set _ _ _, ⟨rowx, hr, ?_⟩, ?_⟩
      · exact engine.index_set_self ls.Targets node.Position.X _ hx hlt
      · intro i hi
        exact engine.index_set_ne ls.Targets node.Position.X i _ hx hi
    · intro hng
      exact absurd ⟨hc, hlt, hy⟩ hng
  · refine ⟨ls, row0, ?_, h0, fun hg' => absurd hg' hg, fun _ => rfl⟩
    unfold NodeAddedHandler
    by_cases hc : payload.Class = NodeClass.Living
    · rw [if_pos hc, hnode]
      simp only
      by_cases hlt : node.Position.X < (ls.Targets.length : Int)
      · rw [if_pos hlt, h0]
        simp only
        have hy : ¬ node.Position.Y < (row0.length : Int) := fun hy => hg ⟨hc, hlt, hy⟩
        rw [if_neg hy]
      · rw [if_neg hlt]
    · rw [if_neg hc]

/-- Witness for C4: registering a `Living` node at `(1, 0)` on a grid of two
rows whose row 0 holds one node appends it to row 1. -/
theorem engine.NodeAddedHandler_registers_witness :
    ∃ ls' row0, NodeAddedHandler gridTwoRows (livingPayload (mkNode 1 0 true true)) = some ls' ∧
      index gridTwoRows.Targets 0 = some row0 ∧
      (((livingPayload (mkNode 1 0 true true)).Class = NodeClass.Living ∧
          (mkNode 1 0 true true).Position.X < (gridTwoRows.Targets.length : Int) ∧
          (mkNode 1 0 true true).Position.Y < (row0.length : Int)) →
        ls'.Targets.length = gridTwoRows.Targets.length ∧
        (∃ rowx, index gridTwoRows.Targets (mkNode 1 0 true true).Position.X = some rowx ∧
          index ls'.Targets (mkNode 1 0 true true).Position.X
            = some (rowx ++ [mkNode 1 0 true true])) ∧
        ∀ i : Int, i ≠ (mkNode 1 0 true true).Position.X →
          index ls'.Targets i = index gridTwoRows.Targets i) ∧
      (¬ ((livingPayload (mkNode 1 0 true true)).Class = NodeClass.Living ∧
          (mkNode 1 0 true true).Position.X < (gridTwoRows.Targets.length : Int) ∧
          (mkNode 1 0 true true).Position.Y < (row0.length : Int)) →
        ls' = gridTwoRows) :=
  engine.NodeAddedHandler_registers gridTwoRows (livingPayload (mkNode 1 0 true true))
    (mkNode 1 0 true true) (by decide) rfl (by decide)

/-- C5, evaluated at non-negative dimensions with more rows than columns:
`NewLivingSystem(1, 0)` and `NewLivingSystem(3, 2)` do not complete, because
the allocation `make([][]LivingNode, rows, cols)` asks for a length larger
than the capacity. -/
theorem engine.NewLivingSystem_panics_when_rows_exceed_cols :
    (0 : Int) ≤ 1 ∧ (0 : Int) ≤ 0 ∧ NewLivingSystem 1 0 = none ∧ NewLivingSystem 3 2 = none := by
  decide

/-- C6, evaluated on a system built through the public API:
`NewLivingSystem(1, 1)` succeeds, registering a `Living` node at `(0, -1)`
completes and stores the node, and `Update` then does not complete: the
lookup `add(x, y - 1)` reads `Targets[0][-2]`. -/
theorem engine.Update_panics_on_registered_node :
    NewLivingSystem 1 1 = some ({ Targets := [[]] }, none) ∧
    NodeAddedHandler { Targets := [[]] } (livingPayload (mkNode 0 (-1) true true))
      = some { Targets := [[mkNode 0 (-1) true true]] } ∧
    add { Targets := [[mkNode 0 (-1) true true]] } 0 (-1 - 1) 3 = none ∧
    liveNeighbors { Targets := [[mkNode 0 (-1) true true]] } (mkNode 0 (-1) true true) = none ∧
    Update { Targets := [[mkNode 0 (-1) true true]] } = none := by
  decide

/-- C7, evaluated on fresh systems and `Living` nodes outside the grid with a
negative coordinate: on the system of `NewLivingSystem(0, 0)` the node at
`(-1, 0)` makes `NodeAddedHandler` read `Targets[0]` of a grid without rows; on
the system of `NewLivingSystem(1, 1)` the node at `(-1, -1)` makes it read
`Targets[-1]`, and the node at `(0, -1)` is appended to row 0. -/
theorem engine.NodeAddedHandler_negative_coordinates :
    NewLivingSystem 0 0 = some ({ Targets := [] }, none) ∧
    NodeAddedHandler { Targets := [] } (livingPayload (mkNode (-1) 0 true true)) = none ∧
    NewLivingSystem 1 1 = some ({ Targets := [[]] }, none) ∧
    NodeAddedHandler { Targets := [[]] } (livingPayload (mkNode (-1) (-1) true true)) = none ∧
    NodeAddedHandler { Targets := [[]] } (livingPayload (mkNode 0 (-1) true true))
      = some { Targets := [[mkNode 0 (-1) true true]] } ∧
    ({ Targets := [[mkNode 0 (-1) true true]] } : LivingSystem) ≠ { Targets := [[]] } := by
  decide

/-- C8, evaluated on a system reachable from `NewLivingSystem(1, 1)`: after
the `Living` nodes at `(0, -1)` and `(0, 0)` are registered, row 0 holds two
nodes, and a `Living` node at `(0, 1)`, whose `y = 1` is not below `cols = 1`,
is appended to row 0 instead of being dropped. -/
theorem engine.NodeAddedHandler_accepts_column_beyond_cols :
    NewLivingSystem 1 1 = some ({ Targets := [[]] }, none) ∧
    registerAll { Targets := [[]] }
        [livingPayload (mkNode 0 (-1) true true), livingPayload (mkNode 0 0 true true)]
      = some { Targets := [[mkNode 0 (-1) true true, mkNode 0 0 true true]] } ∧
    (1 : Int) ≤ (mkNode 0 1 true true).Position.Y ∧
    NodeAddedHandler { Targets := [[mkNode 0 (-1) true true, mkNode 0 0 true true]] }
        (livingPayload (mkNode 0 1 true true))
      = some { Targets := [[mkNode 0 (-1) true true, mkNode 0 0 true true,
          mkNode 0 1 true true]] } := by
  decide

/-- An `Update` call that completes returns the grid it was given. -/
theorem engine.Update_eq_self (ls ls' : LivingSystem) (h : Update ls = some ls') : ls' = ls := by
  unfold Update at h
  cases hr : updateRows ls ls.Targets with
  | none => rw [hr] at h; cases h
  | some done =>
    rw [hr] at h
    simp only [Option.some.injEq] at h
    exact h.symm

/-- Every grid keeps its own rows. -/
theorem engine.RowsKept_refl (ls : LivingSystem) : RowsKept ls ls :=
  ⟨rfl, fun _ row h => ⟨[], by rw [List.append_nil]; exact h⟩⟩

/-- A completed `NodeAddedHandler` call keeps every row, possibly with one node
added at the end of one of them. -/
theorem engine.NodeAddedHandler_keeps (ls ls' : LivingSystem) (payload : NodeAddedPayload)
    (h : NodeAddedHandler ls payload = some ls') : RowsKept ls ls' := by
  rcases engine.NodeAddedHandler_cases ls ls' payload h with
    e | ⟨node, row0, rowx, _, _, hlt, _, _, hr, e⟩
  · rw [e]; exact engine.RowsKept_refl ls
  · obtain ⟨hx0, _, hget⟩ := engine.index_eq_some ls.Targets node.Position.X rowx hr
    rw [e]
    refine ⟨List.length_set _ _ _, fun i row hi => ?_⟩
    by_cases hix : node.Position.X.toNat = i
    · subst hix
      have hrow : rowx = row := Option.some.inj (hget.symm.trans hi)
      subst hrow
      exact ⟨[node], List.getElem?_set_self (by omega)⟩
    · refine ⟨[], ?_⟩
      rw [List.append_nil]
      exact (List.getElem?_set_ne hix).trans hi

/-- C9: a node is never removed.  Whenever `NodeAddedHandler` completes on a
system and a payload, and whenever `Update` completes on a system, the number
of rows is unchanged and every row of the grid before the call is an initial
segment of the same row after the call. -/
theorem engine.nodes_never_removed (ls ls' : LivingSystem)
    (h : (∃ payload, NodeAddedHandler ls payload = some ls') ∨ Update ls = some ls') :
    RowsKept ls ls' := by
  rcases h with ⟨payload, h⟩ | h
  · exact engine.NodeAddedHandler_keeps ls ls' payload h
  · rw [engine.Update_eq_self ls ls' h]
    exact engine.RowsKept_refl ls

/-- Witness for C9: registering a `Living` node at `(1, 0)` on the grid of two
rows completes and keeps both rows. -/
theorem engine.nodes_never_removed_witness :
    NodeAddedHandler gridTwoRows (livingPayload (mkNode 1 0 true true))
      = some { Targets := [[mkNode 0 (-1) true true], [mkNode 1 0 true true]] } ∧
    RowsKept gridTwoRows { Targets := [[mkNode 0 (-1) true true], [mkNode 1 0 true true]] } :=
  ⟨by decide, engine.nodes_never_removed gridTwoRows
    { Targets := [[mkNode 0 (-1) true true], [mkNode 1 0 true true]] }
    (Or.inl ⟨livingPayload (mkNode 1 0 true true), by decide⟩)⟩

/-- C10, evaluated on systems reachable from `NewLivingSystem(1, 1)`: after
the `Living` node at `(0, -1)` is registered it is stored at `Targets[0][0]`,
and after the node at `(0, 0)` is registered too it is stored at
`Targets[0][1]`; neither node has its truncated `Y` equal to its column. -/
theorem engine.stored_column_differs_from_Y :
    NewLivingSystem 1 1 = some ({ Targets := [[]] }, none) ∧
    registerAll { Targets := [[]] } [livingPayload (mkNode 0 (-1) true true)]
      = some { Targets := [[mkNode 0 (-1) true true]] } ∧
    cellAt { Targets := [[mkNode 0 (-1) true true]] } 0 0 = some (mkNode 0 (-1) true true) ∧
    (mkNode 0 (-1) true true).Position.Y ≠ 0 ∧
    registerAll { Targets := [[]] }
        [livingPayload (mkNode 0 (-1) true true), livingPayload (mkNode 0 0 true true)]
      = some { Targets := [[mkNode 0 (-1) true true, mkNode 0 0 true true]] } ∧
    cellAt { Targets := [[mkNode 0 (-1) true true, mkNode 0 0 true true]] } 0 1
      = some (mkNode 0 0 true true) ∧
    (mkNode 0 0 true true).Position.Y ≠ 1 := by
  decide

/-- Indexing a slice built from `0, 1, .., n-1`. -/
theorem engine.index_map_range {α : Type} (n : Nat) (f : Nat → α) (i : Int) :
    index ((List.range n).map f) i
      = if 0 ≤ i ∧ i < (n : Int) then some (f i.toNat) else none := by
  unfold index
  by_cases hi : i < 0
  · rw [if_pos hi, if_neg (by omega)]
  · rw [if_neg hi]
    by_cases hn : i < (n : Int)
    · have h3 : i.toNat < n := by omega
      rw [if_pos ⟨by omega, hn⟩, List.getElem?_map, List.getElem?_range h3]
      rfl
    · rw [if_neg (by omega)]
      apply List.getElem?_eq_none
      rw [List.length_map, List.length_range]
      omega

/-- The cells of `gridOf`. -/
theorem engine.cellAt_gridOf (rows cols : Nat) (live : Int → Int → Bool) (i j : Int) :
    cellAt (gridOf rows cols live) i j =
      if (0 ≤ i ∧ i < (rows : Int)) ∧ (0 ≤ j ∧ j < (cols : Int))
      then some (mkNode i j (live i j) (live i j)) else none := by
  unfold cellAt gridOf
  rw [engine.index_map_range]
  by_cases hi : 0 ≤ i ∧ i < (rows : Int)
  · rw [if_pos hi, Option.some_bind, engine.index_map_range]
    have ei : Int.ofNat i.toNat = i := by simp only [Int.ofNat_eq_coe]; omega
    by_cases hj : 0 ≤ j ∧ j < (cols : Int)
    · have ej : Int.ofNat j.toNat = j := by simp only [Int.ofNat_eq_coe]; omega
      rw [if_pos hj, if_pos ⟨hi, hj⟩, ei, ej]
    · rw [if_neg hj, if_neg (fun h => hj h.2)]
  · rw [if_neg hi, if_neg (fun h => hi h.1)]
    rfl

/-- The grids built by `gridOf` are well-formed. -/
theorem engine.WellFormed_gridOf (rows cols : Nat) (live : Int → Int → Bool) :
    WellFormed (gridOf rows cols live) rows cols := by
  refine ⟨?_, ?_, ?_⟩
  · simp [gridOf]
  · intro row hrow
    simp only [gridOf, List.mem_map] at hrow
    obtain ⟨i, _, rfl⟩ := hrow
    simp
  · intro i j cell h
    rw [engine.cellAt_gridOf] at h
    by_cases hc : (0 ≤ i ∧ i < (rows : Int)) ∧ (0 ≤ j ∧ j < (cols : Int))
    · rw [if_pos hc] at h
      cases h
      exact ⟨rfl, rfl⟩
    · rw [if_neg hc] at h
      cases h

/-- The live cells of a grid built by `gridOf`. -/
theorem engine.LiveExactly_gridOf (rows cols : Nat) (live : Int → Int → Bool)
    (P : Int → Int → Prop)
    (h : ∀ i j : Int, 0 ≤ i → i < (rows : Int) → 0 ≤ j → j < (cols : Int) →
      (live i j = true ↔ P i j)) :
    LiveExactly (gridOf rows cols live) P := by
  intro i j cell hcell
  rw [engine.cellAt_gridOf] at hcell
  by_cases hc : (0 ≤ i ∧ i < (rows : Int)) ∧ (0 ≤ j ∧ j < (cols : Int))
  · rw [if_pos hc] at hcell
    cases hcell
    exact ⟨rfl, h i j hc.1.1 hc.1.2 hc.2.1 hc.2.2⟩
  · rw [if_neg hc] at hcell
    cases hcell

/-- C11, evaluated on the well-formed 3 × 3 grid whose only live node is the
centre `(1, 1)`: its count is 0 and the loop copy of the node gets
`AliveNext = false`, yet `Update` returns the grid as it was, so the node
stored in `Targets` still has `AliveNext = true`. -/
theorem engine.Update_keeps_lone_cell_alive :
    WellFormed gridLone 3 3 ∧
    LiveExactly gridLone (fun i j => i = 1 ∧ j = 1) ∧
    cellAt gridLone 1 1 = some (mkNode 1 1 true true) ∧
    liveCountOf gridLone (mkNode 1 1 true true) = some 0 ∧
    updateNodeState gridLone (mkNode 1 1 true true) = some (mkNode 1 1 true false) ∧
    Update gridLone = some gridLone ∧
    (mkNode 1 1 true true).Living.AliveNext = true :=
  ⟨engine.WellFormed_gridOf 3 3 _,
   engine.LiveExactly_gridOf 3 3 _ _ (fun i j _ _ _ _ => by simp),
   by decide, by decide, by decide, by decide, by decide⟩

/-- C13, evaluated on the well-formed 5 × 5 grid whose live nodes are the line
`(2, 1)`, `(2, 2)`, `(2, 3)`: the loop copies get `AliveNext = true` exactly on
the perpendicular line `(1, 2)`, `(2, 2)`, `(3, 2)`, yet `Update` returns the
grid as it was, so the stored nodes with `AliveNext = true` are still the
original line: the node stored at `(2, 1)` has `AliveNext = true` and the node
stored at `(1, 2)` has `AliveNext = false`. -/
theorem engine.Update_keeps_blinker_line :
    WellFormed gridBlinker 5 5 ∧
    LiveExactly gridBlinker (fun i j => i = 2 ∧ (j = 1 ∨ j = 2 ∨ j = 3)) ∧
    (updateRows gridBlinker gridBlinker.Targets).map
        (fun t => t.map fun r => r.map fun n => n.Living.AliveNext)
      = some [[false, false, false, false, false],
              [false, false, true, false, false],
              [false, false, true, false, false],
              [false, false, true, false, false],
              [false, false, false, false, false]] ∧
    Update gridBlinker = some gridBlinker ∧
    cellAt gridBlinker 2 1 = some (mkNode 2 1 true true) ∧
    cellAt gridBlinker 1 2 = some (mkNode 1 2 false false) :=
  ⟨engine.WellFormed_gridOf 5 5 _,
   engine.LiveExactly_gridOf 5 5 _ _ (fun i j _ _ _ _ => by simp),
   by decide, by decide, by decide, by decide⟩

/-- C14: on the grid of one row holding one node positioned at `(0, 0)`, each
of the eight lookups of `liveNeighbors` succeeds and reads that same cell, so
`liveNeighbors` returns 8 when the node's stored `Alive` is true and 0 when it
is false. -/
theorem engine.liveNeighbors_one_cell (node : LivingNode)
    (hx : node.Position.X = 0) (hy : node.Position.Y = 0) :
    (∀ d ∈ neighbourOffsets, ∀ c,
      add { Targets := [[node]] } (node.Position.X + d.1) (node.Position.Y + d.2) c
        = some (if node.Living.Alive = true then c + 1 else c)) ∧
    (∀ d ∈ neighbourOffsets,
      cellAt { Targets := [[node]] } ((node.Position.X + d.1) % 1) ((node.Position.Y + d.2) % 1)
        = some node) ∧
    liveNeighbors { Targets := [[node]] } node
      = some (if node.Living.Alive = true then 8 else 0) := by
  have hadd : ∀ dx dy : Int, (dx = -1 ∨ dx = 0 ∨ dx = 1) → (dy = -1 ∨ dy = 0 ∨ dy = 1) → ∀ c,
      add { Targets := [[node]] } dx dy c = some (if node.Living.Alive = true then c + 1 else c) := by
    intro dx dy hdx hdy c
    rcases hdx with h | h | h <;> rcases hdy with h' | h' | h' <;> subst h <;> subst h' <;>
      simp [add, index]
  refine ⟨?_, ?_, ?_⟩
  · intro d hd c
    rw [hx, hy]
    unfold neighbourOffsets at hd
    simp only [List.mem_cons, List.mem_nil_iff, or_false] at hd
    rcases hd with h | h | h | h | h | h | h | h <;> subst h <;>
      exact hadd _ _ (by decide) (by decide) c
  · intro d _
    rw [Int.emod_one, Int.emod_one]
    simp [cellAt, index]
  · unfold liveNeighbors
    rw [hx, hy]
    simp only [hadd _ _ (show ((0:Int) - 1 = -1 ∨ (0:Int) - 1 = 0 ∨ (0:Int) - 1 = 1) by decide)
        (show ((0:Int) = -1 ∨ (0:Int) = 0 ∨ (0:Int) = 1) by decide),
      hadd _ _ (show ((0:Int) + 1 = -1 ∨ (0:Int) + 1 = 0 ∨ (0:Int) + 1 = 1) by decide)
        (show ((0:Int) = -1 ∨ (0:Int) = 0 ∨ (0:Int) = 1) by decide),
      hadd _ _ (show ((0:Int) = -1 ∨ (0:Int) = 0 ∨ (0:Int) = 1) by decide)
        (show ((0:Int) + 1 = -1 ∨ (0:Int) + 1 = 0 ∨ (0:Int) + 1 = 1) by decide),
      hadd _ _ (show ((0:Int) = -1 ∨ (0:Int) = 0 ∨ (0:Int) = 1) by decide)
        (show ((0:Int) - 1 = -1 ∨ (0:Int) - 1 = 0 ∨ (0:Int) - 1 = 1) by decide),
      hadd _ _ (show ((0:Int) - 1 = -1 ∨ (0:Int) - 1 = 0 ∨ (0:Int) - 1 = 1) by decide)
        (show ((0:Int) + 1 = -1 ∨ (0:Int) + 1 = 0 ∨ (0:Int) + 1 = 1) by decide),
      hadd _ _ (show ((0:Int) + 1 = -1 ∨ (0:Int) + 1 = 0 ∨ (0:Int) + 1 = 1) by decide)
        (show ((0:Int) + 1 = -1 ∨ (0:Int) + 1 = 0 ∨ (0:Int) + 1 = 1) by decide),
      hadd _ _ (show ((0:Int) - 1 = -1 ∨ (0:Int) - 1 = 0 ∨ (0:Int) - 1 = 1) by decide)
        (show ((0:Int) - 1 = -1 ∨ (0:Int) - 1 = 0 ∨ (0:Int) - 1 = 1) by decide),
      hadd _ _ (show ((0:Int) + 1 = -1 ∨ (0:Int) + 1 = 0 ∨ (0:Int) + 1 = 1) by decide)
        (show ((0:Int) - 1 = -1 ∨ (0:Int) - 1 = 0 ∨ (0:Int) - 1 = 1) by decide),
      Option.some_bind]
    cases node.Living.Alive <;> rfl

/-- Witness for C14: the live node at `(0, 0)` on its own grid counts itself
eight times. -/
theorem engine.liveNeighbors_one_cell_witness :
    liveNeighbors { Targets := [[mkNode 0 0 true true]] } (mkNode 0 0 true true)
      = some (if (mkNode 0 0 true true).Living.Alive = true then 8 else 0) :=
  (engine.liveNeighbors_one_cell (mkNode 0 0 true true) rfl rfl).2.2

/-- C16: `Update` writes nothing to the grid.  Whenever `Update` completes,
`Targets` after the call is `Targets` before the call: the same rows and the
same nodes, each with its `Position`, `Alive` and `AliveNext` unchanged. -/
theorem engine.Update_writes_nothing (ls ls' : LivingSystem) (h : Update ls = some ls') :
    ls'.Targets = ls.Targets ∧ ∀ i j, cellAt ls' i j = cellAt ls i j := by
  rw [engine.Update_eq_self ls ls' h]
  exact ⟨rfl, fun _ _ => rfl⟩

/-- Witness for C16: `Update` completes on the 1 × 1 grid whose node has
`Alive = false` and `AliveNext = true`, and leaves it as it was. -/
theorem engine.Update_writes_nothing_witness :
    Update grid1x1 = some grid1x1 ∧
    (grid1x1.Targets = [[mkNode 0 0 false true]] ∧
      ∀ i j, cellAt grid1x1 i j = cellAt grid1x1 i j) :=
  ⟨by decide, engine.Update_writes_nothing grid1x1 grid1x1 (by decide)⟩

/-- A lookup of `add` at a column of `-2` or less is out of range. -/
theorem engine.add_none_of_col (ls : LivingSystem) (x y : Int) (c : Nat) (hy : y ≤ -2) :
    add ls x y c = none := by
  unfold add
  simp only
  cases hrow : index ls.Targets
      (if x = (ls.Targets.length : Int) then 0
        else if x = -1 then (ls.Targets.length : Int) - 1 else x) with
  | none => rfl
  | some row =>
    simp only
    have h1 : ¬ y = (row.length : Int) := by omega
    have h2 : ¬ y = -1 := by omega
    rw [if_neg h1, if_neg h2]
    have h3 : index row y = none := by
      unfold index
      rw [if_pos (by omega)]
    rw [h3]

/-- The neighbour count of a node whose truncated `Y` is negative does not
complete: at the latest the lookup `add(x, y - 1)` is out of range. -/
theorem engine.liveNeighbors_none_of_Y (ls : LivingSystem) (node : LivingNode)
    (hy : node.Position.Y ≤ -1) : liveNeighbors ls node = none := by
  unfold liveNeighbors
  simp only
  cases h1 : add ls (node.Position.X - 1) node.Position.Y 0 with
  | none => rfl
  | some c1 =>
    rw [Option.some_bind]
    cases h2 : add ls (node.Position.X + 1) node.Position.Y c1 with
    | none => rfl
    | some c2 =>
      rw [Option.some_bind]
      cases h3 : add ls node.Position.X (node.Position.Y + 1) c2 with
      | none => rfl
      | some c3 =>
        rw [Option.some_bind, engine.add_none_of_col ls _ _ c3 (by omega)]
        rfl

/-- The count inside `updateNodeState` is the count of the node itself. -/
theorem engine.liveCountOf_eq (ls : LivingSystem) (node : LivingNode) :
    liveCountOf ls node = liveNeighbors ls node :=
  engine.liveNeighbors_position ls _ node rfl

/-- The call `updateNodeState` in terms of the count it takes. -/
theorem engine.updateNodeState_eq (ls : LivingSystem) (node : LivingNode) :
    updateNodeState ls node =
      (liveNeighbors ls node).map fun c => rulesOfLife
        { node with Living := { Alive := node.Living.AliveNext,
                                AliveNext := node.Living.AliveNext } } c := by
  have h := engine.liveCountOf_eq ls node
  unfold liveCountOf at h
  unfold updateNodeState
  simp only at h ⊢
  rw [h]
  cases liveNeighbors ls node <;> rfl

/-- The inner loop stops at a node whose count does not complete. -/
theorem engine.updateRow_none (ls : LivingSystem) (row : List LivingNode) (node : LivingNode)
    (hmem : node ∈ row) (h : liveNeighbors ls node = none) : updateRow ls row = none := by
  induction row with
  | nil => cases hmem
  | cons a rest ih =>
    unfold updateRow
    cases ha : updateNodeState ls a with
    | none => rfl
    | some a' =>
      simp only
      rcases List.mem_cons.mp hmem with e | hin
      · rw [engine.updateNodeState_eq, ← e, h] at ha
        cases ha
      · rw [ih hin]

/-- The outer loop stops at a row whose inner loop does not complete. -/
theorem engine.updateRows_none (ls : LivingSystem) (rows : List (List LivingNode))
    (row : List LivingNode) (hmem : row ∈ rows) (h : updateRow ls row = none) :
    updateRows ls rows = none := by
  induction rows with
  | nil => cases hmem
  | cons a rest ih =>
    unfold updateRows
    cases ha : updateRow ls a with
    | none => rfl
    | some a' =>
      simp only
      rcases List.mem_cons.mp hmem with e | hin
      · rw [← e, h] at ha
        cases ha
      · rw [ih hin]

/-- The inner loop completes when every count of the row does. -/
theorem engine.updateRow_some (ls : LivingSystem) (row : List LivingNode)
    (h : ∀ node ∈ row, ∃ c, liveNeighbors ls node = some c) :
    ∃ done, updateRow ls row = some done := by
  induction row with
  | nil => exact ⟨[], rfl⟩
  | cons a rest ih =>
    obtain ⟨c, hc⟩ := h a (List.mem_cons_self a rest)
    obtain ⟨done, hdone⟩ := ih fun node hn => h node (List.mem_cons_of_mem a hn)
    unfold updateRow
    rw [engine.updateNodeState_eq, hc, hdone]
    exact ⟨_, rfl⟩

/-- The outer loop completes when every count of the grid does. -/
theorem engine.updateRows_some (ls : LivingSystem) (rows : List (List LivingNode))
    (h : ∀ row ∈ rows, ∀ node ∈ row, ∃ c, liveNeighbors ls node = some c) :
    ∃ done, updateRows ls rows = some done := by
  induction rows with
  | nil => exact ⟨[], rfl⟩
  | cons a rest ih =>
    obtain ⟨ra, hra⟩ := engine.updateRow_some ls a (h a (List.mem_cons_self a rest))
    obtain ⟨done, hdone⟩ := ih fun row hr => h row (List.mem_cons_of_mem a hr)
    unfold updateRows
    rw [hra, hdone]
    exact ⟨_, rfl⟩

/-- `Update` completes when every count of the grid does, and returns the
grid. -/
theorem engine.Update_some (ls : LivingSystem)
    (h : ∀ row ∈ ls.Targets, ∀ node ∈ row, ∃ c, liveNeighbors ls node = some c) :
    Update ls = some ls := by
  obtain ⟨done, hdone⟩ := engine.updateRows_some ls ls.Targets h
  unfold Update
  rw [hdone]

/-- What a successful `NewLivingSystem` returns. -/
theorem engine.NewLivingSystem_eq (rows cols : Int) (ls0 : LivingSystem) (err : Option String)
    (h : NewLivingSystem rows cols = some (ls0, err)) :
    0 ≤ rows ∧ rows ≤ cols ∧ ls0.Targets = List.replicate rows.toNat [] ∧ err = none := by
  unfold NewLivingSystem makeRows at h
  by_cases hc : rows < 0 ∨ cols < rows
  · rw [if_pos hc] at h
    cases h
  · rw [if_neg hc] at h
    simp only [Option.some.injEq, Prod.mk.injEq] at h
    refine ⟨by omega, by omega, ?_, h.2.symm⟩
    rw [← h.1]

/-- A property of the fresh system that every completed `NodeAddedHandler`
call preserves holds of every reachable system. -/
theorem engine.registerAll_invariant (P : LivingSystem → Prop)
    (hstep : ∀ ls p ls', P ls → NodeAddedHandler ls p = some ls' → P ls')
    (ps : List NodeAddedPayload) :
    ∀ ls0 ls, P ls0 → registerAll ls0 ps = some ls → P ls := by
  induction ps with
  | nil =>
    intro ls0 ls h0 h
    simp only [registerAll, Option.some.injEq] at h
    rw [← h]
    exact h0
  | cons p ps ih =>
    intro ls0 ls h0 h
    unfold registerAll at h
    cases hp : NodeAddedHandler ls0 p with
    | none => rw [hp] at h; cases h
    | some ls1 =>
      rw [hp] at h
      exact ih ls1 ls (hstep ls0 p ls1 h0 hp) h

/-- A node stored before a completed `NodeAddedHandler` call is stored after
it. -/
theorem engine.RowsKept_mem (ls ls' : LivingSystem) (h : RowsKept ls ls')
    (row : List LivingNode) (hrow : row ∈ ls.Targets) (node : LivingNode) (hnode : node ∈ row) :
    ∃ row' ∈ ls'.Targets, node ∈ row' := by
  obtain ⟨i, hi⟩ := List.getElem?_of_mem hrow
  obtain ⟨added, hadd⟩ := h.2 i row hi
  exact ⟨row ++ added, List.mem_iff_getElem?.mpr ⟨i, hadd⟩, List.mem_append_left _ hnode⟩

/-- The fresh system holds no node. -/
theorem engine.NewLivingSystem_HoldsNoNode (rows cols : Int) (ls0 : LivingSystem)
    (err : Option String) (h : NewLivingSystem rows cols = some (ls0, err)) :
    HoldsNoNode ls0 := by
  obtain ⟨_, _, ht, _⟩ := engine.NewLivingSystem_eq rows cols ls0 err h
  intro row hrow
  rw [ht] at hrow
  exact (List.mem_replicate.mp hrow).2

/-- Every reachable system holds no node or holds a node whose truncated `Y`
is negative. -/
theorem engine.Reachable_negative_Y (rows cols : Int) (ls : LivingSystem)
    (h : Reachable rows cols ls) :
    HoldsNoNode ls ∨ ∃ row ∈ ls.Targets, ∃ node ∈ row, node.Position.Y ≤ -1 := by
  obtain ⟨ls0, err, ps, hnew, hreg⟩ := h
  refine engine.registerAll_invariant
    (fun s => HoldsNoNode s ∨ ∃ row ∈ s.Targets, ∃ node ∈ row, node.Position.Y ≤ -1)
    ?_ ps ls0 ls (Or.inl (engine.NewLivingSystem_HoldsNoNode rows cols ls0 err hnew)) hreg
  intro s p s' hs hp
  rcases hs with hempty | ⟨row, hrow, node, hnode, hy⟩
  · rcases engine.NodeAddedHandler_cases s s' p hp with
      e | ⟨node, row0, rowx, _, _, _, h0, hy, hr, e⟩
    · rw [e]; exact Or.inl hempty
    · obtain ⟨_, _, hget0⟩ := engine.index_eq_some s.Targets 0 row0 h0
      have hrow0 : row0 = [] := hempty row0 (List.mem_iff_getElem?.mpr ⟨_, hget0⟩)
      rw [hrow0] at hy
      obtain ⟨hx0, hx1, _⟩ := engine.index_eq_some s.Targets node.Position.X rowx hr
      refine Or.inr ⟨rowx ++ [node], ?_, node, List.mem_append_right _ (List.mem_singleton_self _), ?_⟩
      · rw [e]
        exact List.mem_iff_getElem?.mpr ⟨node.Position.X.toNat, List.getElem?_set_self (by omega)⟩
      · simp only [List.length_nil, Nat.cast_zero] at hy
        omega
  · obtain ⟨row', hrow', hnode'⟩ :=
      engine.RowsKept_mem s s' (engine.NodeAddedHandler_keeps s s' p hp) row hrow node hnode
    exact Or.inr ⟨row', hrow', node, hnode', hy⟩

/-- C17: every system reachable from a successful `NewLivingSystem(rows, cols)`
through completed `NodeAddedHandler` calls that holds at least one node holds
a node whose truncated `Position.Y` is `-1` or less, and `Update` does not
complete on it: `liveNeighbors` makes an out-of-range slice access. -/
theorem engine.Update_fails_when_populated (rows cols : Int) (ls : LivingSystem)
    (hreach : Reachable rows cols ls)
    (hnode : ∃ row ∈ ls.Targets, ∃ node : LivingNode, node ∈ row) :
    (∃ row ∈ ls.Targets, ∃ node ∈ row, node.Position.Y ≤ -1 ∧ liveNeighbors ls node = none) ∧
    Update ls = none := by
  obtain ⟨row0, hrow0, node0, hnode0⟩ := hnode
  rcases engine.Reachable_negative_Y rows cols ls hreach with hempty | ⟨row, hrow, node, hn, hy⟩
  · rw [hempty row0 hrow0] at hnode0
    cases hnode0
  · have hfail := engine.liveNeighbors_none_of_Y ls node hy
    refine ⟨⟨row, hrow, node, hn, hy, hfail⟩, ?_⟩
    unfold Update
    rw [engine.updateRows_none ls ls.Targets row hrow (engine.updateRow_none ls row node hn hfail)]

/-- Witness for C17: the system built by `NewLivingSystem(1, 1)` and the
registration of a `Living` node at `(0, -1)`. -/
theorem engine.Update_fails_when_populated_witness :
    Reachable 1 1 { Targets := [[mkNode 0 (-1) true true]] } ∧
    ((∃ row ∈ ({ Targets := [[mkNode 0 (-1) true true]] } : LivingSystem).Targets,
        ∃ node ∈ row, node.Position.Y ≤ -1 ∧
          liveNeighbors { Targets := [[mkNode 0 (-1) true true]] } node = none) ∧
      Update { Targets := [[mkNode 0 (-1) true true]] } = none) :=
  ⟨⟨{ Targets := [[]] }, none, [livingPayload (mkNode 0 (-1) true true)], by decide, by decide⟩,
   engine.Update_fails_when_populated 1 1 { Targets := [[mkNode 0 (-1) true true]] }
    ⟨{ Targets := [[]] }, none, [livingPayload (mkNode 0 (-1) true true)], by decide, by decide⟩
    ⟨[mkNode 0 (-1) true true], by decide, mkNode 0 (-1) true true, by decide⟩⟩

/-- On a grid that holds no node, a payload whose node has non-negative
truncated coordinates is dropped. -/
theorem engine.NodeAddedHandler_drops (ls : LivingSystem) (payload : NodeAddedPayload)
    (node : LivingNode) (hempty : HoldsNoNode ls) (hnode : payload.LivingNode = some node)
    (hx : 0 ≤ node.Position.X) (hy : 0 ≤ node.Position.Y) :
    NodeAddedHandler ls payload = some ls := by
  unfold NodeAddedHandler
  by_cases hc : payload.Class = NodeClass.Living
  · rw [if_pos hc, hnode]
    simp only
    by_cases hlt : node.Position.X < (ls.Targets.length : Int)
    · rw [if_pos hlt]
      obtain ⟨row0, h0, hmem⟩ := engine.index_of_lt ls.Targets 0 (le_refl 0) (by omega)
      rw [h0]
      simp only
      rw [hempty row0 hmem, if_neg (by simp only [List.length_nil, Nat.cast_zero]; omega)]
    · rw [if_neg hlt]
  · rw [if_neg hc]

/-- C18: on the system returned by a successful `NewLivingSystem(rows, cols)`,
for every finite sequence of payloads whose nodes all have truncated `x ≥ 0`
and `y ≥ 0`, every `NodeAddedHandler` call completes and the grid afterwards is
the fresh grid, which holds no node. -/
theorem engine.fresh_system_accepts_nothing (rows cols : Int) (ls0 : LivingSystem)
    (err : Option String) (ps : List NodeAddedPayload)
    (hnew : NewLivingSystem rows cols = some (ls0, err))
    (hps : ∀ p ∈ ps, ∃ node, p.LivingNode = some node ∧
      0 ≤ node.Position.X ∧ 0 ≤ node.Position.Y) :
    registerAll ls0 ps = some ls0 ∧ HoldsNoNode ls0 := by
  have hempty := engine.NewLivingSystem_HoldsNoNode rows cols ls0 err hnew
  refine ⟨?_, hempty⟩
  induction ps with
  | nil => rfl
  | cons p ps ih =>
    obtain ⟨node, hn, hx, hy⟩ := hps p (List.mem_cons_self p ps)
    unfold registerAll
    rw [engine.NodeAddedHandler_drops ls0 p node hempty hn hx hy]
    exact ih fun q hq => hps q (List.mem_cons_of_mem p hq)

/-- Witness for C18: the system of `NewLivingSystem(2, 3)` and `Living` nodes at
`(0, 0)` and `(1, 2)`. -/
theorem engine.fresh_system_accepts_nothing_witness :
    NewLivingSystem 2 3 = some ({ Targets := [[], []] }, none) ∧
    (registerAll { Targets := [[], []] }
        [livingPayload (mkNode 0 0 true true), livingPayload (mkNode 1 2 true true)]
      = some { Targets := [[], []] } ∧ HoldsNoNode { Targets := [[], []] }) :=
  ⟨by decide, engine.fresh_system_accepts_nothing 2 3 { Targets := [[], []] } none
    [livingPayload (mkNode 0 0 true true), livingPayload (mkNode 1 2 true true)] (by decide)
    (by decide)⟩

/-- C19: every system reachable from a successful `NewLivingSystem(rows, cols)`
through completed `NodeAddedHandler` calls has exactly `rows` rows, and every
node stored in `Targets[i]` has truncated `Position.X` equal to `i`, with
`0 ≤ i < rows`. -/
theorem engine.row_placement (rows cols : Int) (ls : LivingSystem)
    (hreach : Reachable rows cols ls) :
    (ls.Targets.length : Int) = rows ∧
    ∀ (i : Nat) (row : List LivingNode), ls.Targets[i]? = some row →
      ∀ node ∈ row, node.Position.X = (i : Int) ∧ (0 : Int) ≤ i ∧ (i : Int) < rows := by
  obtain ⟨ls0, err, ps, hnew, hreg⟩ := hreach
  obtain ⟨hr0, _, ht, _⟩ := engine.NewLivingSystem_eq rows cols ls0 err hnew
  have hinv := engine.registerAll_invariant
    (fun s => (s.Targets.length : Int) = rows ∧
      ∀ (i : Nat) (row : List LivingNode), s.Targets[i]? = some row →
        ∀ node ∈ row, node.Position.X = (i : Int))
    ?_ ps ls0 ls ?_ hreg
  · refine ⟨hinv.1, fun i row hi node hn => ⟨hinv.2 i row hi node hn, by omega, ?_⟩⟩
    have hlt : i < ls.Targets.length := (List.getElem?_eq_some.mp hi).1
    omega
  · intro s p s' hs hp
    rcases engine.NodeAddedHandler_cases s s' p hp with
      e | ⟨node, row0, rowx, _, _, _, _, _, hr, e⟩
    · rw [e]; exact hs
    · obtain ⟨hx0, hx1, hget⟩ := engine.index_eq_some s.Targets node.Position.X rowx hr
      rw [e]
      refine ⟨by rw [List.length_set]; exact hs.1, fun i row hi n hn => ?_⟩
      by_cases hix : node.Position.X.toNat = i
      · subst hix
        rw [List.getElem?_set_self (by omega)] at hi
        have hrow : rowx ++ [node] = row := Option.some.inj hi
        rw [← hrow] at hn
        rcases List.mem_append.mp hn with h1 | h1
        · exact hs.2 _ rowx hget n h1
        · rw [List.mem_singleton.mp h1]
          omega
      · rw [List.getElem?_set_ne hix] at hi
        exact hs.2 i row hi n hn
  · refine ⟨?_, fun i row hi node hn => ?_⟩
    · rw [ht, List.length_replicate]
      omega
    · rw [ht] at hi
      have hrow : row = [] := by
        have hmem : row ∈ List.replicate rows.toNat ([] : List LivingNode) :=
          List.mem_iff_getElem?.mpr ⟨i, hi⟩
        exact (List.mem_replicate.mp hmem).2
      rw [hrow] at hn
      cases hn

/-- Witness for C19: the system built by `NewLivingSystem(2, 2)` and the
registration of `Living` nodes at `(0, -1)` and `(1, 0)`. -/
theorem engine.row_placement_witness :
    (({ Targets := [[mkNode 0 (-1) true true], [mkNode 1 0 true true]] } :
        LivingSystem).Targets.length : Int) = 2 ∧
    ∀ (i : Nat) (row : List LivingNode),
      ({ Targets := [[mkNode 0 (-1) true true], [mkNode 1 0 true true]] } :
        LivingSystem).Targets[i]? = some row →
      ∀ node ∈ row, node.Position.X = (i : Int) ∧ (0 : Int) ≤ i ∧ (i : Int) < 2 :=
  engine.row_placement 2 2 { Targets := [[mkNode 0 (-1) true true], [mkNode 1 0 true true]] }
    ⟨{ Targets := [[], []] }, none,
      [livingPayload (mkNode 0 (-1) true true), livingPayload (mkNode 1 0 true true)],
      by decide, by decide⟩

/-- A stored cell of a well-formed grid lies inside the grid. -/
theorem engine.cellAt_range (ls : LivingSystem) (rows cols : Int) (hwf : WellFormed ls rows cols)
    (i j : Int) (cell : LivingNode) (h : cellAt ls i j = some cell) :
    (0 ≤ i ∧ i < rows) ∧ (0 ≤ j ∧ j < cols) := by
  unfold cellAt at h
  obtain ⟨row, hrow, hcell⟩ := Option.bind_eq_some.mp h
  obtain ⟨hi0, hi1, hget⟩ := engine.index_eq_some ls.Targets i row hrow
  obtain ⟨hj0, hj1, _⟩ := engine.index_eq_some row j cell hcell
  have hlen := hwf.2.1 row (List.mem_iff_getElem?.mpr ⟨_, hget⟩)
  have hrows := hwf.1
  exact ⟨⟨hi0, by omega⟩, ⟨hj0, by omega⟩⟩

/-- Every place inside a well-formed grid holds a cell. -/
theorem engine.cellAt_exists (ls : LivingSystem) (rows cols : Int) (hwf : WellFormed ls rows cols)
    (i j : Int) (hi0 : 0 ≤ i) (hi1 : i < rows) (hj0 : 0 ≤ j) (hj1 : j < cols) :
    ∃ cell, cellAt ls i j = some cell := by
  have hrows := hwf.1
  obtain ⟨row, hrow, hmem⟩ := engine.index_of_lt ls.Targets i hi0 (by omega)
  have hlen := hwf.2.1 row hmem
  obtain ⟨cell, hcell, _⟩ := engine.index_of_lt row j hj0 (by omega)
  exact ⟨cell, by simp [cellAt, hrow, hcell]⟩

/-- Indexing with a natural number. -/
theorem engine.index_natCast {α : Type} (s : List α) (i : Nat) : index s (i : Int) = s[i]? := by
  unfold index
  rw [if_neg (by omega), Int.toNat_ofNat]

/-- Every stored node is the cell of some place. -/
theorem engine.cellAt_of_mem (ls : LivingSystem) (row : List LivingNode)
    (hrow : row ∈ ls.Targets) (node : LivingNode) (hnode : node ∈ row) :
    ∃ i j, cellAt ls i j = some node := by
  obtain ⟨i, hi⟩ := List.getElem?_of_mem hrow
  obtain ⟨j, hj⟩ := List.getElem?_of_mem hnode
  refine ⟨(i : Int), (j : Int), ?_⟩
  unfold cellAt
  rw [engine.index_natCast, hi, Option.some_bind, engine.index_natCast, hj]

/-- On a well-formed grid every neighbour count completes, and so does
`Update`, which returns the grid. -/
theorem engine.Update_WellFormed (ls : LivingSystem) (rows cols : Int)
    (hwf : WellFormed ls rows cols) : Update ls = some ls := by
  apply engine.Update_some
  intro row hrow node hnode
  obtain ⟨i, j, hcell⟩ := engine.cellAt_of_mem ls row hrow node hnode
  obtain ⟨⟨hi0, hi1⟩, ⟨hj0, hj1⟩⟩ := engine.cellAt_range ls rows cols hwf i j node hcell
  obtain ⟨hx, hy⟩ := hwf.2.2 i j node hcell
  exact ⟨_, engine.liveNeighbors_count ls node rows cols hwf.1 (by omega) (by omega) hwf.2.1
    (by omega) (by omega) (by omega) (by omega)⟩

/-- Whether a cell inside a well-formed grid is alive, when the live cells are
given by `live`. -/
theorem engine.aliveAt_iff (ls : LivingSystem) (rows cols : Int) (hwf : WellFormed ls rows cols)
    (live : Int → Int → Prop) (hlive : LiveExactly ls live)
    (i j : Int) (hi0 : 0 ≤ i) (hi1 : i < rows) (hj0 : 0 ≤ j) (hj1 : j < cols) :
    aliveAt ls i j = true ↔ live i j := by
  obtain ⟨cell, hcell⟩ := engine.cellAt_exists ls rows cols hwf i j hi0 hi1 hj0 hj1
  unfold aliveAt
  rw [hcell]
  exact (hlive i j cell hcell).2

/-- Among three consecutive places of a ring of at least four, relative to a
pair of adjacent places `a`, `a + 1`: when the middle one is in the pair,
exactly one of its two neighbours is; when it is not, at most one is. -/
theorem engine.pair_window (n a k : Int) (hn : 4 ≤ n) (ha0 : 0 ≤ a) (ha1 : a < n)
    (hk0 : 0 ≤ k) (hk1 : k < n) :
    ((k = a ∨ k = (a + 1) % n) →
      (((k + -1) % n = a ∨ (k + -1) % n = (a + 1) % n) ↔
        ¬ ((k + 1) % n = a ∨ (k + 1) % n = (a + 1) % n))) ∧
    (¬ (k = a ∨ k = (a + 1) % n) →
      ¬ (((k + -1) % n = a ∨ (k + -1) % n = (a + 1) % n) ∧
        ((k + 1) % n = a ∨ (k + 1) % n = (a + 1) % n))) := by
  have hm := engine.wrap_eq_emod n (k + -1) (by omega) (by omega) (by omega)
  have hp := engine.wrap_eq_emod n (k + 1) (by omega) (by omega) (by omega)
  have h2 := engine.wrap_eq_emod n (a + 1) (by omega) (by omega) (by omega)
  generalize (k + -1) % n = km at hm ⊢
  generalize (k + 1) % n = kp at hp ⊢
  generalize (a + 1) % n = a2 at h2 ⊢
  split_ifs at hm hp h2 <;> omega

/-- Counting the neighbours that lie in a block, from which rows and which
columns of the neighbourhood meet it. -/
theorem engine.block_count (rm r0 rp cm c0 cp : Bool)
    (h1 : r0 = true → (rm = true ↔ ¬ rp = true))
    (h2 : ¬ r0 = true → ¬ (rm = true ∧ rp = true))
    (h3 : c0 = true → (cm = true ↔ ¬ cp = true))
    (h4 : ¬ c0 = true → ¬ (cm = true ∧ cp = true)) :
    ((r0 && c0) = true →
      (if (rm && cm) = true then 1 else 0) + ((if (rm && c0) = true then 1 else 0) +
      ((if (rm && cp) = true then 1 else 0) + ((if (r0 && cm) = true then 1 else 0) +
      ((if (r0 && cp) = true then 1 else 0) + ((if (rp && cm) = true then 1 else 0) +
      ((if (rp && c0) = true then 1 else 0) + ((if (rp && cp) = true then 1 else 0) + 0)))))))
        = 3) ∧
    ((r0 && c0) = false →
      (if (rm && cm) = true then 1 else 0) + ((if (rm && c0) = true then 1 else 0) +
      ((if (rm && cp) = true then 1 else 0) + ((if (r0 && cm) = true then 1 else 0) +
      ((if (r0 && cp) = true then 1 else 0) + ((if (rp && cm) = true then 1 else 0) +
      ((if (rp && c0) = true then 1 else 0) + ((if (rp && cp) = true then 1 else 0) + 0)))))))
        < 3) := by
  revert h1 h2 h3 h4
  revert rm r0 rp cm c0 cp
  decide

/-- The neighbour count of a stored cell on a well-formed grid of at least
4 × 4 cells whose live cells are a 2 × 2 block: 3 for a cell of the block, less
than 3 for any other cell. -/
theorem engine.block_neighbours (ls : LivingSystem) (rows cols r c : Int)
    (hr : 4 ≤ rows) (hc : 4 ≤ cols) (hwf : WellFormed ls rows cols)
    (hr0 : 0 ≤ r) (hr1 : r < rows) (hc0 : 0 ≤ c) (hc1 : c < cols)
    (hlive : LiveExactly ls (inBlock rows cols r c))
    (i j : Int) (cell : LivingNode) (hcell : cellAt ls i j = some cell) :
    ∃ n, liveNeighbors ls cell = some n ∧
      (inBlock rows cols r c i j → n = 3) ∧ (¬ inBlock rows cols r c i j → n < 3) := by
  obtain ⟨⟨hi0, hi1⟩, ⟨hj0, hj1⟩⟩ := engine.cellAt_range ls rows cols hwf i j cell hcell
  obtain ⟨hx, hy⟩ := hwf.2.2 i j cell hcell
  have hcount := engine.liveNeighbors_count ls cell rows cols hwf.1 (by omega) (by omega)
    hwf.2.1 (by omega) (by omega) (by omega) (by omega)
  rw [hx, hy, engine.toroidalCount_eq_sum] at hcount
  have hA : ∀ u v : Int, aliveAt ls (u % rows) (v % cols)
      = (decide (u % rows = r ∨ u % rows = (r + 1) % rows) &&
          decide (v % cols = c ∨ v % cols = (c + 1) % cols)) := by
    intro u v
    obtain ⟨hu0, hu1⟩ := engine.emod_range rows u (by omega)
    obtain ⟨hv0, hv1⟩ := engine.emod_range cols v (by omega)
    rw [Bool.eq_iff_iff, engine.aliveAt_iff ls rows cols hwf _ hlive _ _ hu0 hu1 hv0 hv1,
      Bool.and_eq_true, decide_eq_true_iff, decide_eq_true_iff]
    rfl
  have ei : (i + 0) % rows = i := by rw [Int.add_zero, Int.emod_eq_of_lt hi0 hi1]
  have ej : (j + 0) % cols = j := by rw [Int.add_zero, Int.emod_eq_of_lt hj0 hj1]
  simp only [hA] at hcount
  simp only [ei, ej] at hcount
  obtain ⟨w1, w2⟩ := engine.pair_window rows r i hr hr0 hr1 hi0 hi1
  obtain ⟨w3, w4⟩ := engine.pair_window cols c j hc hc0 hc1 hj0 hj1
  obtain ⟨k3, klt⟩ := engine.block_count
    (decide ((i + -1) % rows = r ∨ (i + -1) % rows = (r + 1) % rows))
    (decide (i = r ∨ i = (r + 1) % rows))
    (decide ((i + 1) % rows = r ∨ (i + 1) % rows = (r + 1) % rows))
    (decide ((j + -1) % cols = c ∨ (j + -1) % cols = (c + 1) % cols))
    (decide (j = c ∨ j = (c + 1) % cols))
    (decide ((j + 1) % cols = c ∨ (j + 1) % cols = (c + 1) % cols))
    (by simp only [decide_eq_true_iff]; exact w1)
    (by simp only [decide_eq_true_iff]; exact w2)
    (by simp only [decide_eq_true_iff]; exact w3)
    (by simp only [decide_eq_true_iff]; exact w4)
  have hin : inBlock rows cols r c i j ↔
      (decide (i = r ∨ i = (r + 1) % rows) && decide (j = c ∨ j = (c + 1) % cols)) = true := by
    rw [Bool.and_eq_true, decide_eq_true_iff, decide_eq_true_iff]
    rfl
  refine ⟨_, hcount, fun hb => k3 (hin.mp hb), fun hnb => klt ?_⟩
  cases hd : (decide (i = r ∨ i = (r + 1) % rows) && decide (j = c ∨ j = (c + 1) % cols))
  · rfl
  · exact absurd (hin.mpr hd) hnb

/-- C12: on a well-formed grid of at least 4 × 4 cells whose live nodes
(`Alive = AliveNext = true`) are exactly the four cells of a 2 × 2 block, all
other nodes having `Alive = AliveNext = false`, `liveNeighbors` returns exactly
3 for each cell of the block and fewer than 3 for every dead cell, and `Update`
completes and leaves every stored node with the `Alive` and `AliveNext` it had
before. -/
theorem engine.block_still_life (ls : LivingSystem) (rows cols r c : Int)
    (hr : 4 ≤ rows) (hc : 4 ≤ cols) (hwf : WellFormed ls rows cols)
    (hr0 : 0 ≤ r) (hr1 : r < rows) (hc0 : 0 ≤ c) (hc1 : c < cols)
    (hlive : LiveExactly ls (inBlock rows cols r c)) :
    (∀ i j cell, cellAt ls i j = some cell → inBlock rows cols r c i j →
      liveNeighbors ls cell = some 3) ∧
    (∀ i j cell, cellAt ls i j = some cell → ¬ inBlock rows cols r c i j →
      ∃ n, liveNeighbors ls cell = some n ∧ n < 3) ∧
    (∃ ls', Update ls = some ls' ∧
      ∀ i j cell, cellAt ls i j = some cell →
        ∃ cell', cellAt ls' i j = some cell' ∧
          cell'.Living.Alive = cell.Living.Alive ∧
          cell'.Living.AliveNext = cell.Living.AliveNext) := by
  refine ⟨?_, ?_, ?_⟩
  · intro i j cell hcell hb
    obtain ⟨n, hn, h3, _⟩ := engine.block_neighbours ls rows cols r c hr hc hwf hr0 hr1 hc0 hc1
      hlive i j cell hcell
    rw [hn, h3 hb]
  · intro i j cell hcell hnb
    obtain ⟨n, hn, _, hlt⟩ := engine.block_neighbours ls rows cols r c hr hc hwf hr0 hr1 hc0 hc1
      hlive i j cell hcell
    exact ⟨n, hn, hlt hnb⟩
  · exact ⟨ls, engine.Update_WellFormed ls rows cols hwf,
      fun i j cell hcell => ⟨cell, hcell, rfl, rfl⟩⟩

/-- Witness for C12: the 4 × 4 grid whose live cells are the block `(1, 1)`,
`(1, 2)`, `(2, 1)`, `(2, 2)`. -/
theorem engine.block_still_life_witness :
    WellFormed gridBlock 4 4 ∧ LiveExactly gridBlock (inBlock 4 4 1 1) ∧
    ((∀ i j cell, cellAt gridBlock i j = some cell → inBlock 4 4 1 1 i j →
        liveNeighbors gridBlock cell = some 3) ∧
      (∀ i j cell, cellAt gridBlock i j = some cell → ¬ inBlock 4 4 1 1 i j →
        ∃ n, liveNeighbors gridBlock cell = some n ∧ n < 3) ∧
      (∃ ls', Update gridBlock = some ls' ∧
        ∀ i j cell, cellAt gridBlock i j = some cell →
          ∃ cell', cellAt ls' i j = some cell' ∧
            cell'.Living.Alive = cell.Living.Alive ∧
            cell'.Living.AliveNext = cell.Living.AliveNext)) :=
  ⟨engine.WellFormed_gridOf 4 4 _,
   engine.LiveExactly_gridOf 4 4 _ _ (fun i j _ _ _ _ => by simp [inBlock]),
   engine.block_still_life gridBlock 4 4 1 1 (by decide) (by decide)
    (engine.WellFormed_gridOf 4 4 _) (by decide) (by decide) (by decide) (by decide)
    (engine.LiveExactly_gridOf 4 4 _ _ (fun i j _ _ _ _ => by simp [inBlock]))⟩

/-- The counts recorded for a row are the neighbour counts of its nodes on the
grid the sweep was started on. -/
theorem engine.rowCounts_spec (ls : LivingSystem) (row : List LivingNode) :
    ∀ cs, rowCounts ls row = some cs →
      ∀ (j : Nat) (node : LivingNode), row[j]? = some node →
        ∃ c, cs[j]? = some c ∧ liveNeighbors ls node = some c := by
  induction row with
  | nil =>
    intro cs _ j node hj
    cases hj
  | cons a rest ih =>
    intro cs h j node hj
    unfold rowCounts at h
    cases ha : liveCountOf ls a with
    | none => rw [ha] at h; cases h
    | some c0 =>
      rw [ha] at h
      simp only at h
      cases hrest : rowCounts ls rest with
      | none => rw [hrest] at h; cases h
      | some done =>
        rw [hrest] at h
        simp only [Option.some.injEq] at h
        rw [← h]
        cases j with
        | zero =>
          simp only [List.getElem?_cons_zero, Option.some.injEq] at hj
          rw [← hj]
          exact ⟨c0, List.getElem?_cons_zero, (engine.liveCountOf_eq ls a).symm.trans ha⟩
        | succ j =>
          rw [List.getElem?_cons_succ] at hj
          rw [List.getElem?_cons_succ]
          exact ih done hrest j node hj

/-- The counts recorded for the grid, row by row. -/
theorem engine.gridCounts_spec (ls : LivingSystem) (rows : List (List LivingNode)) :
    ∀ counts, gridCounts ls rows = some counts →
      ∀ (i : Nat) (row : List LivingNode), rows[i]? = some row →
        ∃ cs, counts[i]? = some cs ∧ rowCounts ls row = some cs := by
  induction rows with
  | nil =>
    intro counts _ i row hi
    cases hi
  | cons a rest ih =>
    intro counts h i row hi
    unfold gridCounts at h
    cases ha : rowCounts ls a with
    | none => rw [ha] at h; cases h
    | some cs0 =>
      rw [ha] at h
      simp only at h
      cases hrest : gridCounts ls rest with
      | none => rw [hrest] at h; cases h
      | some done =>
        rw [hrest] at h
        simp only [Option.some.injEq] at h
        rw [← h]
        cases i with
        | zero =>
          simp only [List.getElem?_cons_zero, Option.some.injEq] at hi
          rw [← hi]
          exact ⟨cs0, List.getElem?_cons_zero, ha⟩
        | succ i =>
          rw [List.getElem?_cons_succ] at hi
          rw [List.getElem?_cons_succ]
          exact ih done hrest i row hi

/-- The count `Update` computes for a stored cell is the neighbour count of
that cell on the grid as it is before the call. -/
theorem engine.updateCounts_spec (ls : LivingSystem) (counts : List (List Nat))
    (h : updateCounts ls = some counts) (i j : Int) (cell : LivingNode)
    (hcell : cellAt ls i j = some cell) :
    ∃ c, countAt counts i j = some c ∧ liveNeighbors ls cell = some c := by
  unfold cellAt at hcell
  obtain ⟨row, hrow, hnode⟩ := Option.bind_eq_some.mp hcell
  obtain ⟨hi0, _, hgi⟩ := engine.index_eq_some ls.Targets i row hrow
  obtain ⟨hj0, _, hgj⟩ := engine.index_eq_some row j cell hnode
  obtain ⟨cs, hcs, hrc⟩ := engine.gridCounts_spec ls ls.Targets counts h i.toNat row hgi
  obtain ⟨c, hc, hlive⟩ := engine.rowCounts_spec ls row cs hrc j.toNat cell hgj
  refine ⟨c, ?_, hlive⟩
  unfold countAt index
  rw [if_neg (by omega), hcs, Option.some_bind, if_neg (by omega), hc]

/-- The recorded inner loop completes when every count of the row does. -/
theorem engine.rowCounts_some (ls : LivingSystem) (row : List LivingNode)
    (h : ∀ node ∈ row, ∃ c, liveNeighbors ls node = some c) :
    ∃ cs, rowCounts ls row = some cs := by
  induction row with
  | nil => exact ⟨[], rfl⟩
  | cons a rest ih =>
    obtain ⟨c, hc⟩ := h a (List.mem_cons_self a rest)
    obtain ⟨cs, hcs⟩ := ih fun node hn => h node (List.mem_cons_of_mem a hn)
    unfold rowCounts
    rw [engine.liveCountOf_eq, hc, hcs]
    exact ⟨_, rfl⟩

/-- The recorded outer loop completes when every count of the grid does. -/
theorem engine.gridCounts_some (ls : LivingSystem) (rows : List (List LivingNode))
    (h : ∀ row ∈ rows, ∀ node ∈ row, ∃ c, liveNeighbors ls node = some c) :
    ∃ counts, gridCounts ls rows = some counts := by
  induction rows with
  | nil => exact ⟨[], rfl⟩
  | cons a rest ih =>
    obtain ⟨cs, hcs⟩ := engine.rowCounts_some ls a (h a (List.mem_cons_self a rest))
    obtain ⟨done, hdone⟩ := ih fun row hr => h row (List.mem_cons_of_mem a hr)
    unfold gridCounts
    rw [hcs, hdone]
    exact ⟨_, rfl⟩

/-- When `Update` completes, every neighbour count of a stored node does. -/
theorem engine.Update_some_counts (ls ls' : LivingSystem) (h : Update ls = some ls') :
    ∀ row ∈ ls.Targets, ∀ node ∈ row, ∃ c, liveNeighbors ls node = some c := by
  intro row hrow node hnode
  cases hc : liveNeighbors ls node with
  | some c => exact ⟨c, rfl⟩
  | none =>
    have hnone := engine.updateRows_none ls ls.Targets row hrow
      (engine.updateRow_none ls row node hnode hc)
    unfold Update at h
    rw [hnone] at h
    cases h

/-- Whenever `Update` completes, the live-neighbour count it computes for every
stored node equals the count `liveNeighbors` gives for that node on the grid
as it was before the call. -/
theorem engine.Update_counts_from_initial_grid (ls ls' : LivingSystem)
    (h : Update ls = some ls') :
    ∃ counts, updateCounts ls = some counts ∧
      ∀ i j cell, cellAt ls i j = some cell →
        ∃ c, countAt counts i j = some c ∧ liveNeighbors ls cell = some c := by
  obtain ⟨counts, hcounts⟩ := engine.gridCounts_some ls ls.Targets
    (engine.Update_some_counts ls ls' h)
  exact ⟨counts, hcounts, fun i j cell hcell =>
    engine.updateCounts_spec ls counts hcounts i j cell hcell⟩

/-- The 1 × 2 grid `gridPending` is well-formed. -/
theorem engine.WellFormed_gridPending : WellFormed gridPending 1 2 := by
  refine ⟨by decide, by unfold Rectangular; decide, ?_⟩
  intro i j cell h
  unfold cellAt at h
  obtain ⟨row, hrow, hcell⟩ := Option.bind_eq_some.mp h
  obtain ⟨hi0, hi1, hgi⟩ := engine.index_eq_some _ i row hrow
  obtain ⟨hj0, hj1, hgj⟩ := engine.index_eq_some _ j cell hcell
  have hi : i = 0 := by
    simp only [gridPending, List.length_cons, List.length_nil] at hi1
    omega
  subst hi
  simp only [gridPending, Int.toNat_zero, List.getElem?_cons_zero, Option.some.injEq] at hgi
  subst hgi
  have hj : j = 0 ∨ j = 1 := by
    simp only [List.length_cons, List.length_nil] at hj1
    omega
  rcases hj with rfl | rfl
  · simp only [Int.toNat_zero, List.getElem?_cons_zero, Option.some.injEq] at hgj
    subst hgj
    exact ⟨rfl, rfl⟩
  · have e : (1 : Int).toNat = 1 := rfl
    rw [e] at hgj
    simp only [List.getElem?_cons_succ, List.getElem?_cons_zero, Option.some.injEq] at hgj
    subst hgj
    exact ⟨rfl, rfl⟩

/-- C15, evaluated on the well-formed 1 × 2 grid whose first node has
`Alive = false` and `AliveNext = true`: the loop copy of the first node is
promoted to `Alive = true`, yet the count `Update` computes for the second
node, processed after it, is 0, the count `liveNeighbors` gives on the grid as
it was before the call, and the first node is still stored with
`Alive = false`.  On no well-formed grid does a count that `Update` computes
differ from the count on the grid before the call. -/
theorem engine.Update_counts_ignore_promotion :
    WellFormed gridPending 1 2 ∧
    cellAt gridPending 0 0 = some (mkNode 0 0 false true) ∧
    updateNodeState gridPending (mkNode 0 0 false true) = some (mkNode 0 0 true false) ∧
    updateCounts gridPending = some [[0, 0]] ∧
    liveNeighbors gridPending (mkNode 0 1 false false) = some 0 ∧
    Update gridPending = some gridPending ∧
    ¬ ∃ (ls : LivingSystem) (rows cols : Int) (counts : List (List Nat)) (i j : Int)
        (cell : LivingNode) (c : Nat),
      WellFormed ls rows cols ∧ updateCounts ls = some counts ∧
      cellAt ls i j = some cell ∧ countAt counts i j = some c ∧
      liveNeighbors ls cell ≠ some c := by
  refine ⟨engine.WellFormed_gridPending, by decide, by decide, by decide, by decide,
    by decide, ?_⟩
  rintro ⟨ls, rows, cols, counts, i, j, cell, c, _, hcounts, hcell, hc, hne⟩
  obtain ⟨c', hc', hlive⟩ := engine.updateCounts_spec ls counts hcounts i j cell hcell
  rw [hc] at hc'
  cases hc'
  exact hne hlive
